import Mathlib

/-!
# Tolerance comparison primitives (`Utils/src/Comparison.cpp`)

A shallow embedding of the scalar comparison library.  The C++ functions work on
`double`; the embedding therefore starts with a model of IEEE-754 binary64
arithmetic (53-bit significand, exponents `-1022 .. 1023`, gradual underflow,
round-to-nearest with ties to even, overflow to infinity, signed zeros, one NaN)
in which the finite values are rationals.  The library functions are then
transcribed line by line over that model.

Conventions:
* every C++ operator on `double` (`+ - * / < <= > >= ==`, `std::abs`, `std::max`, `std::isnan`,
  `std::isinf`) is a function in the namespace `Double`; each arithmetic operation computes the
  exact rational result and rounds it once, as binary64 evaluation without excess precision does;
* `Double.Valid` singles out the finite values that are binary64 numbers; theorems that depend on
  rounding assume it of the operands concerned, the others hold for every value of the type;
* a comparison written `|a - b| <= epsilon` in a property is the `double` computation of the
  source, `std::abs(a - b) <= epsilon`.
-/

namespace Cmp

/-! ## Binary64 rounding -/

/-- Fuelled binary logarithm on naturals: number of halvings until the value drops below two. -/
def log2Fuel : ℕ → ℕ → ℕ
  | 0, _ => 0
  | fuel + 1, n => if n < 2 then 0 else log2Fuel fuel (n / 2) + 1

/-- Floor of the binary logarithm of a natural number (zero for `0` and `1`). -/
def natLog2 (n : ℕ) : ℕ := log2Fuel n n

/-- Floor of the binary logarithm of a positive rational. -/
def floorLog2 (q : ℚ) : ℤ :=
  let k : ℤ := (natLog2 q.num.natAbs : ℤ) - (natLog2 q.den : ℤ)
  if (2 : ℚ) ^ k ≤ q then k else k - 1

/-- Nearest integer to a rational, ties going to the even neighbour. -/
def roundHalfEven (r : ℚ) : ℤ :=
  let f : ℤ := ⌊r⌋
  if r - f < 1 / 2 then f
  else if 1 / 2 < r - f then f + 1
  else if f % 2 = 0 then f else f + 1

/-- Spacing of binary64 values around a non-negative magnitude: `2 ^ (e - 52)` where `e` is the
binary exponent of the magnitude, not smaller than the minimum normal exponent `-1022`. -/
def quantum (q : ℚ) : ℚ := (2 : ℚ) ^ (max (floorLog2 q) (-1022) - 52)

/-- Round a non-negative magnitude to the binary64 grid (exponent unbounded above). -/
def roundMag (q : ℚ) : ℚ := (roundHalfEven (q / quantum q) : ℚ) * quantum q

/-- Overflow threshold `2 ^ 1024`: rounded magnitudes at or above it become infinite. -/
def overflowBound : ℚ := 2 ^ 1024

/-- Values of the C++ type `double`. A finite value carries its sign bit and its magnitude. -/
inductive Double where
  | nan : Double
  | inf (neg : Bool) : Double
  | fin (neg : Bool) (mag : ℚ) : Double
  deriving DecidableEq

namespace Double

/-- Finite values that really are binary64 numbers: the magnitude is non-negative, lies on the
binary64 grid (rounding leaves it unchanged) and is below the overflow threshold. -/
def Valid : Double → Prop
  | fin _ mag => 0 ≤ mag ∧ roundMag mag = mag ∧ mag < overflowBound
  | _ => True

instance : DecidablePred Valid := fun x =>
  match x with
  | nan => isTrue trivial
  | inf _ => isTrue trivial
  | fin _ mag => inferInstanceAs (Decidable (0 ≤ mag ∧ roundMag mag = mag ∧ mag < overflowBound))

/-- Rational value of a finite double (`0` for the non-finite ones). -/
def toRat : Double → ℚ
  | fin neg mag => if neg then -mag else mag
  | _ => 0

/-- Rounding of an exact result with the given sign and magnitude to a double. -/
def ofRat (neg : Bool) (mag : ℚ) : Double :=
  if overflowBound ≤ roundMag mag then inf neg else fin neg (roundMag mag)

/-- Rounding of a signed exact result; the sign of an exact zero is supplied by the caller. -/
def ofSigned (zeroNeg : Bool) (q : ℚ) : Double :=
  if q = 0 then fin zeroNeg 0 else ofRat (decide (q < 0)) |q|

/-- The literal `0.0`. -/
def zero : Double := fin false 0

/-- Embedding of `std::isnan`. -/
def isnan : Double → Bool
  | nan => true
  | _ => false

/-- Embedding of `std::isinf`. -/
def isinf : Double → Bool
  | inf _ => true
  | _ => false

/-- Finite values (neither NaN nor infinite). -/
def isFinite : Double → Bool
  | fin _ _ => true
  | _ => false

/-- Embedding of `std::abs` on doubles: clears the sign bit. -/
def abs : Double → Double
  | nan => nan
  | inf _ => inf false
  | fin _ mag => fin false mag

/-- Unary minus: flips the sign bit. -/
def neg : Double → Double
  | nan => nan
  | inf s => inf (!s)
  | fin s mag => fin (!s) mag

/-- Operator `+` on doubles. -/
def add : Double → Double → Double
  | nan, _ => nan
  | _, nan => nan
  | inf s, inf t => if s = t then inf s else nan
  | inf s, fin _ _ => inf s
  | fin _ _, inf t => inf t
  | fin s a, fin t b => ofSigned (s && t) ((fin s a).toRat + (fin t b).toRat)

/-- Operator `-` on doubles. -/
def sub (x y : Double) : Double := add x (neg y)

/-- Operator `*` on doubles. -/
def mul : Double → Double → Double
  | nan, _ => nan
  | _, nan => nan
  | inf s, inf t => inf (xor s t)
  | inf s, fin t b => if b = 0 then nan else inf (xor s t)
  | fin s a, inf t => if a = 0 then nan else inf (xor s t)
  | fin s a, fin t b => ofRat (xor s t) (a * b)

/-- Operator `/` on doubles. -/
def div : Double → Double → Double
  | nan, _ => nan
  | _, nan => nan
  | inf _, inf _ => nan
  | inf s, fin t _ => inf (xor s t)
  | fin s _, inf t => fin (xor s t) 0
  | fin s a, fin t b =>
    if b = 0 then (if a = 0 then nan else inf (xor s t)) else ofRat (xor s t) (a / b)

/-- Operator `<` on doubles. -/
def lt : Double → Double → Bool
  | nan, _ => false
  | _, nan => false
  | inf s, inf t => s && !t
  | inf s, fin _ _ => s
  | fin _ _, inf t => !t
  | fin s a, fin t b => decide ((fin s a).toRat < (fin t b).toRat)

/-- Operator `<=` on doubles. -/
def le : Double → Double → Bool
  | nan, _ => false
  | _, nan => false
  | inf s, inf t => s || !t
  | inf s, fin _ _ => s
  | fin _ _, inf t => !t
  | fin s a, fin t b => decide ((fin s a).toRat ≤ (fin t b).toRat)

/-- Operator `>` on doubles. -/
def gt (x y : Double) : Bool := lt y x

/-- Operator `>=` on doubles. -/
def ge (x y : Double) : Bool := le y x

/-- Operator `==` on doubles. -/
def eq : Double → Double → Bool
  | nan, _ => false
  | _, nan => false
  | inf s, inf t => decide (s = t)
  | inf _, fin _ _ => false
  | fin _ _, inf _ => false
  | fin s a, fin t b => decide ((fin s a).toRat = (fin t b).toRat)

/-- Embedding of `std::max`: `(a < b) ? b : a`. -/
def max (a b : Double) : Double := if lt a b then b else a

end Double

open Double

/-! ## Constants -/

/-- Value of `std::numeric_limits<double>::epsilon()`, that is `2 ^ -52`. -/
def machineEpsilon : Double := fin false ((2 : ℚ) ^ (-52 : ℤ))

/-- Constant `DEFAULT_EPSILON = 1e-9`: the double nearest to the decimal literal. -/
def DEFAULT_EPSILON : Double := ofRat false (1 / 1000000000)

/-- Constant `DEFAULT_RELATIVE_TOLERANCE = 1e-9`. -/
def DEFAULT_RELATIVE_TOLERANCE : Double := ofRat false (1 / 1000000000)

/-! ## The comparison functions -/

/-- Absolute-tolerance equality, `isEqual` of `Comparison.cpp`. -/
def isEqual (a b epsilon : Double) : Bool :=
  if a.isnan || b.isnan then false
  else if a.isinf || b.isinf then Double.eq a b
  else Double.le (Double.abs (Double.sub a b)) epsilon

/-- Relative-tolerance equality, `isEqualRelative` of `Comparison.cpp`. -/
def isEqualRelative (a b relativeTolerance : Double) : Bool :=
  if a.isnan || b.isnan then false
  else if a.isinf || b.isinf then Double.eq a b
  else if Double.lt (Double.abs a) machineEpsilon && Double.lt (Double.abs b) machineEpsilon then true
  else
    let maxValue := Double.max (Double.abs a) (Double.abs b)
    Double.le (Double.abs (Double.sub a b)) (Double.mul relativeTolerance maxValue)

/-- Combined absolute/relative equality, `isEqualCombined` of `Comparison.cpp`. -/
def isEqualCombined (a b absoluteTolerance relativeTolerance : Double) : Bool :=
  if a.isnan || b.isnan then false
  else if a.isinf || b.isinf then Double.eq a b
  else if Double.le (Double.abs (Double.sub a b)) absoluteTolerance then true
  else
    let maxValue := Double.max (Double.abs a) (Double.abs b)
    Double.le (Double.abs (Double.sub a b)) (Double.mul relativeTolerance maxValue)

/-- Tolerant `<`: `a < b - epsilon`. -/
def isLess (a b epsilon : Double) : Bool := Double.lt a (Double.sub b epsilon)

/-- Tolerant `<=`: `a <= b + epsilon`. -/
def isLessOrEqual (a b epsilon : Double) : Bool := Double.le a (Double.add b epsilon)

/-- Tolerant `>`: `a > b + epsilon`. -/
def isGreater (a b epsilon : Double) : Bool := Double.gt a (Double.add b epsilon)

/-- Tolerant `>=`: `a >= b - epsilon`. -/
def isGreaterOrEqual (a b epsilon : Double) : Bool := Double.ge a (Double.sub b epsilon)

/-- Zero test `|value| <= epsilon`. -/
def isZero (value epsilon : Double) : Bool := Double.le (Double.abs value) epsilon

/-- Zero test `|value| <= relativeTolerance`. -/
def isZeroRelative (value relativeTolerance : Double) : Bool :=
  Double.le (Double.abs value) relativeTolerance

/-- Function `absoluteDifference`: `|a - b|`. -/
def absoluteDifference (a b : Double) : Double := Double.abs (Double.sub a b)

/-- Function `relativeDifference` of `Comparison.cpp`, with `a` as the reference value. -/
def relativeDifference (a b : Double) : Double :=
  if a.isnan || b.isnan then nan
  else if a.isinf || b.isinf then
    (if Double.eq a b then zero else inf false)
  else if Double.lt (Double.abs a) machineEpsilon && Double.lt (Double.abs b) machineEpsilon then zero
  else if Double.lt (Double.abs a) machineEpsilon then
    Double.div (Double.abs (Double.sub a b)) (Double.abs b)
  else Double.div (Double.abs (Double.sub a b)) (Double.abs a)

/-- Function `sameSign` of `Comparison.cpp`; `isZero` is called with its default tolerance. -/
def sameSign (a b : Double) : Bool :=
  if isZero a DEFAULT_EPSILON && isZero b DEFAULT_EPSILON then true
  else (Double.ge a zero && Double.ge b zero) || (Double.lt a zero && Double.lt b zero)

/-- Function `clamp` of `Comparison.cpp`: the bounds are swapped when `min > max`, then the value
is snapped to a bound it is tolerantly beyond, the lower bound being tested first. -/
def clamp (value min max epsilon : Double) : Double :=
  let lo := if Double.gt min max then max else min
  let hi := if Double.gt min max then min else max
  if isLessOrEqual value lo epsilon then lo
  else if isGreaterOrEqual value hi epsilon then hi
  else value

/-! ## Byte reversal of the dataset loader (`src/MNISTLoader.cpp`) -/

/-- Function `MNISTLoader::reverseBytes` on `uint32_t`, modelled on naturals below `2 ^ 32`; every
shifted term is reduced modulo `2 ^ 32` as the 32-bit operations of the source do. -/
def MNISTLoader.reverseBytes (value : ℕ) : ℕ :=
  ((value &&& 0xFF000000) >>> 24) % 2 ^ 32 |||
  ((value &&& 0x00FF0000) >>> 8) % 2 ^ 32 |||
  ((value &&& 0x0000FF00) <<< 8) % 2 ^ 32 |||
  ((value &&& 0x000000FF) <<< 24) % 2 ^ 32

/-! ## Properties of the rounding function -/

theorem log2Fuel_spec (fuel : ℕ) : ∀ n : ℕ, 1 ≤ n → n < 2 ^ fuel →
    2 ^ log2Fuel fuel n ≤ n ∧ n < 2 ^ (log2Fuel fuel n + 1) := by
  induction fuel with
  | zero => intro n h1 h2; simp at h2; omega
  | succ f ih =>
    intro n h1 h2
    unfold log2Fuel
    by_cases hn : n < 2
    · simp [hn]; omega
    · simp only [hn, if_false]
      have h3 : 1 ≤ n / 2 := by omega
      have h4 : n / 2 < 2 ^ f := by
        rw [pow_succ] at h2; omega
      obtain ⟨i1, i2⟩ := ih (n / 2) h3 h4
      rw [pow_succ] at i2 ⊢
      rw [pow_succ]
      constructor <;> omega

theorem natLog2_spec (n : ℕ) (h : 1 ≤ n) :
    2 ^ natLog2 n ≤ n ∧ n < 2 ^ (natLog2 n + 1) :=
  log2Fuel_spec n n h (Nat.lt_two_pow n)

theorem ratio_pow_bounds (N D : ℚ) (A B : ℕ) (hD : 0 < D)
    (a1 : (2 : ℚ) ^ A ≤ N) (a2 : N < (2 : ℚ) ^ (A + 1))
    (b1 : (2 : ℚ) ^ B ≤ D) (b2 : D < (2 : ℚ) ^ (B + 1)) :
    (2 : ℚ) ^ ((A : ℤ) - (B : ℤ) - 1) < N / D ∧ N / D < (2 : ℚ) ^ ((A : ℤ) - (B : ℤ) + 1) := by
  have two_ne : (2 : ℚ) ≠ 0 := by norm_num
  constructor
  · rw [show ((A : ℤ) - (B : ℤ) - 1) = (A : ℤ) - ((B + 1 : ℕ) : ℤ) by push_cast; ring]
    rw [zpow_sub₀ two_ne, zpow_natCast, zpow_natCast]
    apply lt_of_lt_of_le (b := (2 : ℚ) ^ A / D)
    · exact div_lt_div_of_pos_left (by positivity) hD b2
    · exact div_le_div_of_nonneg_right a1 hD.le
  · rw [show ((A : ℤ) - (B : ℤ) + 1) = ((A + 1 : ℕ) : ℤ) - (B : ℤ) by push_cast; ring]
    rw [zpow_sub₀ two_ne, zpow_natCast, zpow_natCast]
    apply lt_of_lt_of_le (b := (2 : ℚ) ^ (A + 1) / D)
    · exact div_lt_div_of_pos_right a2 hD
    · exact div_le_div_of_nonneg_left (by positivity) (by positivity) b1

theorem floorLog2_spec (q : ℚ) (hq : 0 < q) :
    (2 : ℚ) ^ floorLog2 q ≤ q ∧ q < (2 : ℚ) ^ (floorLog2 q + 1) := by
  have hnum : 0 < q.num := Rat.num_pos.mpr hq
  have hn1 : 1 ≤ q.num.natAbs := by omega
  have hd1 : 1 ≤ q.den := q.den_pos
  obtain ⟨a1, a2⟩ := natLog2_spec _ hn1
  obtain ⟨b1, b2⟩ := natLog2_spec _ hd1
  have hqeq : (q.num.natAbs : ℚ) / (q.den : ℚ) = q := by
    have : ((q.num.natAbs : ℤ) : ℚ) = (q.num : ℚ) := by
      rw [Int.natAbs_of_nonneg hnum.le]
    rw [← Int.cast_natCast, this]
    exact Rat.num_div_den q
  have hdpos : (0 : ℚ) < (q.den : ℚ) := by exact_mod_cast hd1
  have a1q : (2 : ℚ) ^ natLog2 q.num.natAbs ≤ (q.num.natAbs : ℚ) := by exact_mod_cast a1
  have a2q : (q.num.natAbs : ℚ) < (2 : ℚ) ^ (natLog2 q.num.natAbs + 1) := by exact_mod_cast a2
  have b1q : (2 : ℚ) ^ natLog2 q.den ≤ (q.den : ℚ) := by exact_mod_cast b1
  have b2q : (q.den : ℚ) < (2 : ℚ) ^ (natLog2 q.den + 1) := by exact_mod_cast b2
  obtain ⟨hlow, hhigh⟩ := ratio_pow_bounds _ _ _ _ hdpos a1q a2q b1q b2q
  rw [hqeq] at hlow hhigh
  unfold floorLog2
  simp only
  split_ifs with hk
  · exact ⟨hk, hhigh⟩
  · refine ⟨hlow.le, ?_⟩
    rw [sub_add_cancel]
    exact lt_of_not_le hk

theorem roundHalfEven_intCast (n : ℤ) : roundHalfEven (n : ℚ) = n := by
  unfold roundHalfEven
  simp

theorem roundHalfEven_bounds (r : ℚ) :
    ⌊r⌋ ≤ roundHalfEven r ∧ roundHalfEven r ≤ ⌊r⌋ + 1 := by
  unfold roundHalfEven
  simp only
  split_ifs <;> constructor <;> omega

theorem roundHalfEven_mono {r s : ℚ} (h : r ≤ s) : roundHalfEven r ≤ roundHalfEven s := by
  have hfl : ⌊r⌋ ≤ ⌊s⌋ := Int.floor_mono h
  rcases lt_or_eq_of_le hfl with hlt | heq
  · have h1 := (roundHalfEven_bounds r).2
    have h2 := (roundHalfEven_bounds s).1
    omega
  · unfold roundHalfEven
    simp only
    rw [← heq]
    split_ifs <;> first | omega | (exfalso; linarith)

theorem roundHalfEven_nonneg {r : ℚ} (h : 0 ≤ r) : 0 ≤ roundHalfEven r := by
  have := roundHalfEven_mono h
  rwa [show (0 : ℚ) = ((0 : ℤ) : ℚ) by norm_num, roundHalfEven_intCast] at this

theorem quantum_pos (q : ℚ) : 0 < quantum q := by
  unfold quantum
  positivity

theorem roundMag_nonneg {q : ℚ} (h : 0 ≤ q) : 0 ≤ roundMag q := by
  unfold roundMag
  have h1 : 0 ≤ q / quantum q := div_nonneg h (quantum_pos q).le
  have h2 := roundHalfEven_nonneg h1
  have h3 : (0 : ℚ) ≤ (roundHalfEven (q / quantum q) : ℚ) := by exact_mod_cast h2
  exact mul_nonneg h3 (quantum_pos q).le

theorem roundMag_zero : roundMag 0 = 0 := by
  unfold roundMag
  rw [zero_div, show (0 : ℚ) = ((0 : ℤ) : ℚ) by norm_num, roundHalfEven_intCast]
  simp

theorem floorLog2_mono {a b : ℚ} (ha : 0 < a) (hab : a ≤ b) : floorLog2 a ≤ floorLog2 b := by
  have h1 := (floorLog2_spec a ha).1
  have h2 := (floorLog2_spec b (lt_of_lt_of_le ha hab)).2
  have h3 : (2 : ℚ) ^ floorLog2 a < (2 : ℚ) ^ (floorLog2 b + 1) :=
    lt_of_le_of_lt (le_trans h1 hab) h2
  have h4 := (zpow_lt_zpow_iff_right₀ (by norm_num : (1 : ℚ) < 2)).mp h3
  omega

/-- Upper bound: a positive magnitude rounds to at most the next power of two. -/
theorem roundMag_le_pow {q : ℚ} (hq : 0 < q) :
    roundMag q ≤ (2 : ℚ) ^ (max (floorLog2 q) (-1022) + 1) := by
  have hu := quantum_pos q
  have hlt : q < (2 : ℚ) ^ (max (floorLog2 q) (-1022) + 1) :=
    lt_of_lt_of_le (floorLog2_spec q hq).2
      (zpow_le_zpow_right₀ (by norm_num) (by omega))
  have hsplit : (2 : ℚ) ^ (max (floorLog2 q) (-1022) + 1) = ((2 ^ 53 : ℤ) : ℚ) * quantum q := by
    unfold quantum
    rw [show max (floorLog2 q) (-1022) + 1 = (53 : ℤ) + (max (floorLog2 q) (-1022) - 52) by ring]
    rw [zpow_add₀ (by norm_num : (2 : ℚ) ≠ 0)]
    norm_num
  have hdiv : q / quantum q ≤ ((2 ^ 53 : ℤ) : ℚ) := by
    rw [div_le_iff₀ hu, ← hsplit]
    exact hlt.le
  have hr := roundHalfEven_mono hdiv
  rw [roundHalfEven_intCast] at hr
  unfold roundMag
  rw [hsplit]
  apply mul_le_mul_of_nonneg_right _ hu.le
  exact_mod_cast hr

/-- Lower bound: a magnitude in the normal range rounds to at least its leading power of two. -/
theorem pow_le_roundMag {q : ℚ} (hq : 0 < q) (hn : -1022 ≤ floorLog2 q) :
    (2 : ℚ) ^ (floorLog2 q) ≤ roundMag q := by
  have hu := quantum_pos q
  have hmax : max (floorLog2 q) (-1022) = floorLog2 q := max_eq_left hn
  have hsplit : (2 : ℚ) ^ (floorLog2 q) = ((2 ^ 52 : ℤ) : ℚ) * quantum q := by
    unfold quantum
    rw [hmax]
    nth_rewrite 1 [show floorLog2 q = (52 : ℤ) + (floorLog2 q - 52) by ring]
    rw [zpow_add₀ (by norm_num : (2 : ℚ) ≠ 0)]
    norm_num
  have hdiv : ((2 ^ 52 : ℤ) : ℚ) ≤ q / quantum q := by
    rw [le_div_iff₀ hu, ← hsplit]
    exact (floorLog2_spec q hq).1
  have hr := roundHalfEven_mono hdiv
  rw [roundHalfEven_intCast] at hr
  unfold roundMag
  rw [hsplit]
  apply mul_le_mul_of_nonneg_right _ hu.le
  exact_mod_cast hr

/-- Rounding to the binary64 grid is monotone on non-negative magnitudes. -/
theorem roundMag_mono {a b : ℚ} (ha : 0 ≤ a) (hab : a ≤ b) : roundMag a ≤ roundMag b := by
  rcases eq_or_lt_of_le ha with h0 | hpos
  · rw [← h0, roundMag_zero]
    exact roundMag_nonneg (le_trans ha hab)
  have hbpos : 0 < b := lt_of_lt_of_le hpos hab
  have hL := floorLog2_mono hpos hab
  rcases eq_or_lt_of_le (max_le_max_right (-1022) hL) with heq | hlt
  · have hq : quantum a = quantum b := by unfold quantum; rw [heq]
    unfold roundMag
    rw [hq]
    apply mul_le_mul_of_nonneg_right _ (quantum_pos b).le
    have : a / quantum b ≤ b / quantum b := div_le_div_of_nonneg_right hab (quantum_pos b).le
    exact_mod_cast roundHalfEven_mono this
  · have hbn : -1022 ≤ floorLog2 b := by
      by_contra hc
      have : max (floorLog2 b) (-1022) = -1022 := max_eq_right (by omega)
      have h2 : -1022 ≤ max (floorLog2 a) (-1022) := le_max_right _ _
      omega
    have hbmax : max (floorLog2 b) (-1022) = floorLog2 b := max_eq_left hbn
    calc roundMag a ≤ (2 : ℚ) ^ (max (floorLog2 a) (-1022) + 1) := roundMag_le_pow hpos
      _ ≤ (2 : ℚ) ^ (floorLog2 b) := zpow_le_zpow_right₀ (by norm_num) (by omega)
      _ ≤ roundMag b := pow_le_roundMag hbpos hbn

theorem floorLog2_unique {x : ℚ} {k : ℤ} (h1 : (2 : ℚ) ^ k ≤ x) (h2 : x < (2 : ℚ) ^ (k + 1)) :
    floorLog2 x = k := by
  have hx : 0 < x := lt_of_lt_of_le (by positivity) h1
  obtain ⟨s1, s2⟩ := floorLog2_spec x hx
  have a : (2 : ℚ) ^ k < (2 : ℚ) ^ (floorLog2 x + 1) := lt_of_le_of_lt h1 s2
  have b : (2 : ℚ) ^ floorLog2 x < (2 : ℚ) ^ (k + 1) := lt_of_le_of_lt s1 h2
  have a' := (zpow_lt_zpow_iff_right₀ (by norm_num : (1 : ℚ) < 2)).mp a
  have b' := (zpow_lt_zpow_iff_right₀ (by norm_num : (1 : ℚ) < 2)).mp b
  omega

/-- A grid point whose own exponent is the grid exponent is left unchanged by rounding. -/
theorem roundMag_grid (n : ℤ) (k : ℤ)
    (hk : max (floorLog2 ((n : ℚ) * (2 : ℚ) ^ (k - 52))) (-1022) = k) :
    roundMag ((n : ℚ) * (2 : ℚ) ^ (k - 52)) = (n : ℚ) * (2 : ℚ) ^ (k - 52) := by
  unfold roundMag quantum
  rw [hk, mul_div_assoc, div_self (by positivity), mul_one, roundHalfEven_intCast]

/-- Rounding is idempotent: rounded magnitudes lie on the binary64 grid. -/
theorem roundMag_idem {q : ℚ} (hq : 0 ≤ q) : roundMag (roundMag q) = roundMag q := by
  rcases eq_or_lt_of_le hq with h0 | hpos
  · rw [← h0, roundMag_zero, roundMag_zero]
  have hu := quantum_pos q
  have hn0 : 0 ≤ roundHalfEven (q / quantum q) := roundHalfEven_nonneg (div_nonneg hq hu.le)
  have two_ne : (2 : ℚ) ≠ 0 := by norm_num
  -- the result as a grid point
  have hr : roundMag q = (roundHalfEven (q / quantum q) : ℚ)
      * (2 : ℚ) ^ (max (floorLog2 q) (-1022) - 52) := rfl
  have hupper : roundHalfEven (q / quantum q) ≤ 2 ^ 53 := by
    have h := roundMag_le_pow hpos
    rw [hr, show max (floorLog2 q) (-1022) + 1 = (53 : ℤ) + (max (floorLog2 q) (-1022) - 52) by ring,
      zpow_add₀ two_ne] at h
    have h' := le_of_mul_le_mul_right h (by positivity)
    have h'' : ((roundHalfEven (q / quantum q) : ℤ) : ℚ) ≤ ((2 ^ 53 : ℤ) : ℚ) := by
      rw [show ((2 ^ 53 : ℤ) : ℚ) = (2 : ℚ) ^ (53 : ℤ) by norm_num]
      exact h'
    exact_mod_cast h''
  rcases eq_or_lt_of_le hn0 with hz | hnpos
  · rw [hr, ← hz]
    simp [roundMag_zero]
  by_cases hsmall : roundHalfEven (q / quantum q) < 2 ^ 52
  · -- subnormal result
    have he : max (floorLog2 q) (-1022) = -1022 := by
      by_contra hc
      have hn : -1022 ≤ floorLog2 q := by
        rcases le_total (floorLog2 q) (-1022) with h | h
        · exact absurd (max_eq_right h) hc
        · exact h
      have h := pow_le_roundMag hpos hn
      rw [hr, max_eq_left hn] at h
      nth_rewrite 1 [show floorLog2 q = (52 : ℤ) + (floorLog2 q - 52) by ring] at h
      rw [zpow_add₀ two_ne] at h
      have h' := le_of_mul_le_mul_right h (by positivity)
      have h'' : ((2 ^ 52 : ℤ) : ℚ) ≤ ((roundHalfEven (q / quantum q) : ℤ) : ℚ) := by
        rw [show ((2 ^ 52 : ℤ) : ℚ) = (2 : ℚ) ^ (52 : ℤ) by norm_num]
        exact h'
      have : (2 ^ 52 : ℤ) ≤ roundHalfEven (q / quantum q) := by exact_mod_cast h''
      omega
    rw [hr, he]
    apply roundMag_grid
    apply max_eq_right
    have hrpos : (0 : ℚ) < (roundHalfEven (q / quantum q) : ℚ) * (2 : ℚ) ^ ((-1022 : ℤ) - 52) := by
      apply mul_pos _ (by positivity)
      exact_mod_cast hnpos
    have hlt : (roundHalfEven (q / quantum q) : ℚ) * (2 : ℚ) ^ ((-1022 : ℤ) - 52)
        < (2 : ℚ) ^ (-1022 : ℤ) := by
      have hc : ((roundHalfEven (q / quantum q) : ℤ) : ℚ) < ((2 ^ 52 : ℤ) : ℚ) := by
        exact_mod_cast hsmall
      rw [show ((2 ^ 52 : ℤ) : ℚ) = (2 : ℚ) ^ (52 : ℤ) by norm_num] at hc
      calc (roundHalfEven (q / quantum q) : ℚ) * (2 : ℚ) ^ ((-1022 : ℤ) - 52)
          < (2 : ℚ) ^ (52 : ℤ) * (2 : ℚ) ^ ((-1022 : ℤ) - 52) :=
            mul_lt_mul_of_pos_right hc (by positivity)
        _ = (2 : ℚ) ^ (-1022 : ℤ) := by rw [← zpow_add₀ two_ne]; norm_num
    have hs := (floorLog2_spec _ hrpos).1
    have := (zpow_lt_zpow_iff_right₀ (by norm_num : (1 : ℚ) < 2)).mp (lt_of_le_of_lt hs hlt)
    omega
  · have hge : (2 ^ 52 : ℤ) ≤ roundHalfEven (q / quantum q) := by omega
    have hgeq : (2 : ℚ) ^ (52 : ℤ) ≤ (roundHalfEven (q / quantum q) : ℚ) := by
      have : ((2 ^ 52 : ℤ) : ℚ) ≤ ((roundHalfEven (q / quantum q) : ℤ) : ℚ) := by
        exact_mod_cast hge
      rwa [show ((2 ^ 52 : ℤ) : ℚ) = (2 : ℚ) ^ (52 : ℤ) by norm_num] at this
    have hemin : -1022 ≤ max (floorLog2 q) (-1022) := le_max_right _ _
    rcases eq_or_lt_of_le hupper with heq | hlt53
    · -- the significand carried into the next binade
      rw [hr, heq]
      have hval : (((2 ^ 53 : ℤ)) : ℚ) * (2 : ℚ) ^ (max (floorLog2 q) (-1022) - 52)
          = ((2 ^ 52 : ℤ) : ℚ) * (2 : ℚ) ^ ((max (floorLog2 q) (-1022) + 1) - 52) := by
        rw [show ((2 ^ 53 : ℤ) : ℚ) = (2 : ℚ) ^ (53 : ℤ) by norm_num,
          show ((2 ^ 52 : ℤ) : ℚ) = (2 : ℚ) ^ (52 : ℤ) by norm_num,
          ← zpow_add₀ two_ne, ← zpow_add₀ two_ne]
        congr 1
        ring
      rw [hval]
      apply roundMag_grid
      have hfl : floorLog2 (((2 ^ 52 : ℤ) : ℚ) * (2 : ℚ) ^ ((max (floorLog2 q) (-1022) + 1) - 52))
          = max (floorLog2 q) (-1022) + 1 := by
        apply floorLog2_unique
        · rw [show ((2 ^ 52 : ℤ) : ℚ) = (2 : ℚ) ^ (52 : ℤ) by norm_num, ← zpow_add₀ two_ne]
          apply le_of_eq
          congr 1
          ring
        · rw [show ((2 ^ 52 : ℤ) : ℚ) = (2 : ℚ) ^ (52 : ℤ) by norm_num, ← zpow_add₀ two_ne]
          apply zpow_lt_zpow_right₀ (by norm_num)
          omega
      rw [hfl]
      apply max_eq_left
      omega
    · rw [hr]
      apply roundMag_grid
      have hfl : floorLog2 ((roundHalfEven (q / quantum q) : ℚ)
          * (2 : ℚ) ^ (max (floorLog2 q) (-1022) - 52)) = max (floorLog2 q) (-1022) := by
        apply floorLog2_unique
        · calc (2 : ℚ) ^ (max (floorLog2 q) (-1022))
              = (2 : ℚ) ^ (52 : ℤ) * (2 : ℚ) ^ (max (floorLog2 q) (-1022) - 52) := by
                rw [← zpow_add₀ two_ne]; congr 1; ring
            _ ≤ _ := mul_le_mul_of_nonneg_right hgeq (by positivity)
        · have hc : ((roundHalfEven (q / quantum q) : ℤ) : ℚ) < ((2 ^ 53 : ℤ) : ℚ) := by
            exact_mod_cast hlt53
          rw [show ((2 ^ 53 : ℤ) : ℚ) = (2 : ℚ) ^ (53 : ℤ) by norm_num] at hc
          calc (roundHalfEven (q / quantum q) : ℚ) * (2 : ℚ) ^ (max (floorLog2 q) (-1022) - 52)
              < (2 : ℚ) ^ (53 : ℤ) * (2 : ℚ) ^ (max (floorLog2 q) (-1022) - 52) :=
                mul_lt_mul_of_pos_right hc (by positivity)
            _ = (2 : ℚ) ^ (max (floorLog2 q) (-1022) + 1) := by
                rw [← zpow_add₀ two_ne]; congr 1; ring
      rw [hfl]
      exact max_eq_left hemin

/-! ## The operations return binary64 values -/

theorem overflowBound_pos : 0 < overflowBound := by
  unfold overflowBound
  positivity

theorem valid_zero (s : Bool) : (fin s 0).Valid :=
  ⟨le_refl 0, roundMag_zero, overflowBound_pos⟩

theorem ofRat_valid (s : Bool) {q : ℚ} (hq : 0 ≤ q) : (ofRat s q).Valid := by
  unfold ofRat
  split_ifs with h
  · trivial
  · exact ⟨roundMag_nonneg hq, roundMag_idem hq, not_le.mp h⟩

theorem ofSigned_valid (z : Bool) (q : ℚ) : (ofSigned z q).Valid := by
  unfold ofSigned
  split_ifs
  · exact valid_zero z
  · exact ofRat_valid _ (abs_nonneg q)

theorem abs_valid {x : Double} (h : x.Valid) : (Double.abs x).Valid := by
  cases x <;> exact h

theorem neg_valid {x : Double} (h : x.Valid) : (Double.neg x).Valid := by
  cases x <;> exact h

theorem add_valid (x y : Double) : (Double.add x y).Valid := by
  cases x <;> cases y <;> simp only [Double.add] <;>
    first
    | exact True.intro
    | exact ofSigned_valid _ _
    | (split_ifs <;> exact True.intro)

theorem sub_valid (x y : Double) : (Double.sub x y).Valid := add_valid x (Double.neg y)

theorem mul_valid {x y : Double} (hx : x.Valid) (hy : y.Valid) : (Double.mul x y).Valid := by
  cases x <;> cases y <;> simp only [Double.mul] <;>
    first
    | exact True.intro
    | exact ofRat_valid _ (mul_nonneg hx.1 hy.1)
    | (split_ifs <;> exact True.intro)

theorem div_valid {x y : Double} (hx : x.Valid) (hy : y.Valid) : (Double.div x y).Valid := by
  cases x <;> cases y <;> simp only [Double.div] <;>
    first
    | exact True.intro
    | exact valid_zero _
    | (split_ifs <;> first | exact True.intro | exact ofRat_valid _ (div_nonneg hx.1 hy.1))

/-! ## Basic facts about the double operations -/

theorem ofRat_of_valid (s : Bool) {m : ℚ} (h1 : roundMag m = m) (h2 : m < overflowBound) :
    ofRat s m = fin s m := by
  unfold ofRat
  rw [h1, if_neg (not_le.mpr h2)]

theorem ofRat_one : ofRat false 1 = fin false 1 := by decide!

theorem machineEpsilon_pos : (0 : ℚ) < (2 : ℚ) ^ (-52 : ℤ) := by positivity

theorem relativeDifference_fin (s t : Bool) (a b : ℚ) :
    relativeDifference (fin s a) (fin t b) =
      if Double.lt (Double.abs (fin s a)) machineEpsilon &&
          Double.lt (Double.abs (fin t b)) machineEpsilon then zero
      else if Double.lt (Double.abs (fin s a)) machineEpsilon then
        Double.div (Double.abs (Double.sub (fin s a) (fin t b))) (Double.abs (fin t b))
      else Double.div (Double.abs (Double.sub (fin s a) (fin t b))) (Double.abs (fin s a)) :=
  rfl

theorem relativeDifference_nan_right (a : Double) : relativeDifference a nan = nan := by
  cases a <;> rfl

theorem dlt_false_of_dle {x y : Double} (h : Double.le x y = true) : Double.lt y x = false := by
  cases x <;> cases y <;> simp_all [Double.le, Double.lt]
  rename_i s t
  cases s <;> cases t <;> simp_all

theorem dlt_false_of_dlt {x y : Double} (h : Double.lt x y = true) : Double.lt y x = false := by
  cases x <;> cases y <;> simp_all [Double.lt]
  exact le_of_lt h

theorem dle_false_of_dlt {x y : Double} (h : Double.lt x y = true) : Double.le y x = false := by
  cases x <;> cases y <;> simp_all [Double.le, Double.lt]

theorem dle_of_dlt_false {x y : Double} (hx : x.isFinite = true) (hy : y.isFinite = true)
    (h : Double.lt y x = false) : Double.le x y = true := by
  cases x <;> cases y <;> simp_all [Double.le, Double.lt, Double.isFinite]

theorem dle_of_dlt {x y : Double} (h : Double.lt x y = true) : Double.le x y = true := by
  cases x <;> cases y <;> simp_all [Double.le, Double.lt]
  exact le_of_lt h

theorem dle_refl_of_finite {x : Double} (hx : x.isFinite = true) : Double.le x x = true := by
  cases x <;> simp_all [Double.le, Double.isFinite]

/-- A finite value that is not below a bound `c` lies above every finite value below `c`. -/
theorem dle_of_dle_of_not_dle {x v c : Double} (hx : x.isFinite = true) (hv : v.isFinite = true)
    (h1 : Double.le x c = true) (h2 : Double.le v c = false) : Double.le x v = true := by
  cases x <;> cases v <;> cases c <;> simp_all [Double.le, Double.isFinite]
  linarith

/-- A finite value that is not above a bound `c` lies below every finite value above `c`. -/
theorem dle_of_not_dle_of_dle {x v c : Double} (hx : x.isFinite = true) (hv : v.isFinite = true)
    (h1 : Double.le c x = true) (h2 : Double.le c v = false) : Double.le v x = true := by
  cases x <;> cases v <;> cases c <;> simp_all [Double.le, Double.isFinite]
  linarith

/-- Rounding an exact result that is at least a binary64 value gives at least that value. -/
theorem le_ofSigned {s : Bool} {m : ℚ} (hv : (fin s m).Valid) (z : Bool) {q : ℚ}
    (h : (fin s m).toRat ≤ q) : Double.le (fin s m) (ofSigned z q) = true := by
  obtain ⟨h0, hr, hlt⟩ := hv
  unfold ofSigned
  by_cases hq : q = 0
  · simp only [hq, if_true, Double.le, decide_eq_true_eq]
    rw [hq] at h
    simpa [Double.toRat] using h
  · simp only [hq, if_false]
    unfold ofRat
    rcases lt_or_gt_of_ne hq with hneg | hpos
    · -- negative exact result: the value is negative and at least as large in magnitude
      have hs : s = true := by
        cases s
        · simp only [Double.toRat] at h
          simp at h
          linarith
        · rfl
      subst hs
      simp only [Double.toRat, if_true] at h
      have habs : |q| = -q := abs_of_neg hneg
      have hle : roundMag |q| ≤ m := by
        rw [← hr]
        exact roundMag_mono (abs_nonneg q) (by rw [habs]; linarith)
      have hno : ¬ overflowBound ≤ roundMag |q| := not_le.mpr (lt_of_le_of_lt hle hlt)
      simp only [hno, if_false, Double.le, decide_eq_true_eq, Double.toRat, hneg, decide_True,
        if_true]
      linarith
    · have habs : |q| = q := abs_of_pos hpos
      have hnn : ¬ q < 0 := not_lt.mpr hpos.le
      by_cases hov : overflowBound ≤ roundMag |q|
      · simp [hov, Double.le, hnn]
      · simp only [hov, if_false, Double.le, decide_eq_true_eq, Double.toRat, hnn, decide_False]
        simp only [Bool.false_eq_true, if_false]
        cases s
        · simp only [Double.toRat] at h
          simp only [Bool.false_eq_true, if_false] at h ⊢
          rw [← hr, habs]
          exact roundMag_mono h0 h
        · simp only [if_true]
          have := roundMag_nonneg (abs_nonneg q)
          linarith

/-- Rounding an exact result that is at most a binary64 value gives at most that value. -/
theorem ofSigned_le {s : Bool} {m : ℚ} (hv : (fin s m).Valid) (z : Bool) {q : ℚ}
    (h : q ≤ (fin s m).toRat) : Double.le (ofSigned z q) (fin s m) = true := by
  obtain ⟨h0, hr, hlt⟩ := hv
  unfold ofSigned
  by_cases hq : q = 0
  · simp only [hq, if_true, Double.le, decide_eq_true_eq]
    rw [hq] at h
    simpa [Double.toRat] using h
  · simp only [hq, if_false]
    unfold ofRat
    rcases lt_or_gt_of_ne hq with hneg | hpos
    · have habs : |q| = -q := abs_of_neg hneg
      by_cases hov : overflowBound ≤ roundMag |q|
      · simp [hov, Double.le, hneg]
      · simp only [hov, if_false, Double.le, decide_eq_true_eq, Double.toRat, hneg, decide_True,
          if_true]
        cases s
        · simp only [Bool.false_eq_true, if_false]
          have := roundMag_nonneg (abs_nonneg q)
          linarith
        · simp only [Double.toRat, if_true] at h
          simp only [if_true]
          have : roundMag m ≤ roundMag |q| :=
            roundMag_mono h0 (by rw [habs]; linarith)
          rw [hr] at this
          linarith
    · have habs : |q| = q := abs_of_pos hpos
      have hnn : ¬ q < 0 := not_lt.mpr hpos.le
      have hs : s = false := by
        cases s
        · rfl
        · simp only [Double.toRat, if_true] at h
          linarith
      subst hs
      simp only [Double.toRat] at h
      simp only [Bool.false_eq_true, if_false] at h
      have hle : roundMag |q| ≤ m := by
        rw [← hr, habs]
        exact roundMag_mono hpos.le h
      have hno : ¬ overflowBound ≤ roundMag |q| := not_le.mpr (lt_of_le_of_lt hle hlt)
      simp only [hno, if_false, Double.le, decide_eq_true_eq, Double.toRat, hnn, decide_False]
      simpa using hle

/-- Adding a non-negative tolerance to a finite double never gives less than that double. -/
theorem le_add_of_nonneg {x e : Double} (hx : x.isFinite = true) (hv : x.Valid)
    (he : Double.ge e zero = true) : Double.le x (Double.add x e) = true := by
  cases x with
  | nan => simp [Double.isFinite] at hx
  | inf s => simp [Double.isFinite] at hx
  | fin s m =>
    cases e with
    | nan => simp [Double.ge, Double.le, zero] at he
    | inf t =>
      have ht : t = false := by simpa [Double.ge, Double.le, zero] using he
      subst ht
      simp [Double.add, Double.le]
    | fin t b =>
      have hb : 0 ≤ (fin t b).toRat := by
        simpa [Double.ge, Double.le, zero, Double.toRat] using he
      show Double.le (fin s m) (ofSigned (s && t) ((fin s m).toRat + (fin t b).toRat)) = true
      exact le_ofSigned hv _ (by linarith)

/-- Subtracting a non-negative tolerance from a finite double never gives more than it. -/
theorem sub_le_of_nonneg {x e : Double} (hx : x.isFinite = true) (hv : x.Valid)
    (he : Double.ge e zero = true) : Double.le (Double.sub x e) x = true := by
  cases x with
  | nan => simp [Double.isFinite] at hx
  | inf s => simp [Double.isFinite] at hx
  | fin s m =>
    cases e with
    | nan => simp [Double.ge, Double.le, zero] at he
    | inf t =>
      have ht : t = false := by simpa [Double.ge, Double.le, zero] using he
      subst ht
      simp [Double.sub, Double.neg, Double.add, Double.le]
    | fin t b =>
      have hb : 0 ≤ (fin t b).toRat := by
        simpa [Double.ge, Double.le, zero, Double.toRat] using he
      have hn : (fin (!t) b).toRat = -(fin t b).toRat := by
        cases t <;> simp [Double.toRat]
      show Double.le (ofSigned (s && !t) ((fin s m).toRat + (fin (!t) b).toRat)) (fin s m) = true
      exact ofSigned_le hv _ (by rw [hn]; linarith)

theorem clamp_of_not_gt (value : Double) {mn mx : Double} (epsilon : Double)
    (h : Double.gt mn mx = false) :
    clamp value mn mx epsilon =
      if isLessOrEqual value mn epsilon then mn
      else if isGreaterOrEqual value mx epsilon then mx else value := by
  simp [clamp, h]

theorem clamp_of_gt (value : Double) {mn mx : Double} (epsilon : Double)
    (h : Double.gt mn mx = true) :
    clamp value mn mx epsilon =
      if isLessOrEqual value mx epsilon then mx
      else if isGreaterOrEqual value mn epsilon then mn else value := by
  simp [clamp, h]

theorem isZero_zero_default : isZero zero DEFAULT_EPSILON = true := by decide!

theorem DEFAULT_EPSILON_value :
    DEFAULT_EPSILON = fin false (4835703278458517 / 4835703278458516698824704) := by decide!

/-! ## Further facts about differences, orderings and tolerances -/

theorem dle_fin (s t : Bool) (a b : ℚ) :
    Double.le (fin s a) (fin t b) = decide ((fin s a).toRat ≤ (fin t b).toRat) := rfl

theorem dlt_fin (s t : Bool) (a b : ℚ) :
    Double.lt (fin s a) (fin t b) = decide ((fin s a).toRat < (fin t b).toRat) := rfl

theorem dle_of_finite {x y : Double} (hx : x.isFinite = true) (hy : y.isFinite = true) :
    Double.le x y = decide (x.toRat ≤ y.toRat) := by
  cases x <;> cases y <;> simp [Double.isFinite] at hx hy
  rfl

theorem dlt_of_finite {x y : Double} (hx : x.isFinite = true) (hy : y.isFinite = true) :
    Double.lt x y = decide (x.toRat < y.toRat) := by
  cases x <;> cases y <;> simp [Double.isFinite] at hx hy
  rfl

theorem toRat_neg (x : Double) : (Double.neg x).toRat = -x.toRat := by
  cases x with
  | nan => simp [Double.neg, Double.toRat]
  | inf s => simp [Double.neg, Double.toRat]
  | fin s m => cases s <;> simp [Double.neg, Double.toRat]

theorem ofSigned_neg (z z' : Bool) (q : ℚ) :
    Double.abs (ofSigned z (-q)) = Double.abs (ofSigned z' q) := by
  unfold ofSigned
  by_cases hq : q = 0
  · simp [hq, Double.abs]
  · have hq' : -q ≠ 0 := neg_ne_zero.mpr hq
    simp only [hq, hq', if_false, abs_neg]
    unfold ofRat
    split_ifs <;> rfl

/-- The magnitude of a difference does not depend on the order of the operands. -/
theorem abs_sub_comm (a b : Double) :
    Double.abs (Double.sub a b) = Double.abs (Double.sub b a) := by
  cases a with
  | nan => cases b <;> rfl
  | inf s =>
    cases b with
    | nan => rfl
    | inf t => cases s <;> cases t <;> rfl
    | fin t m => rfl
  | fin s m =>
    cases b with
    | nan => rfl
    | inf t => rfl
    | fin t n =>
      show Double.abs (ofSigned (s && !t) ((fin s m).toRat + (Double.neg (fin t n)).toRat))
        = Double.abs (ofSigned (t && !s) ((fin t n).toRat + (Double.neg (fin s m)).toRat))
      rw [toRat_neg, toRat_neg]
      rw [show (fin s m).toRat + -(fin t n).toRat = -((fin t n).toRat + -(fin s m).toRat) by ring]
      exact ofSigned_neg _ _ _

/-- The magnitude of a difference of finite doubles is `+infinity` or a non-negative finite value. -/
theorem abs_sub_finite_cases {a b : Double} (ha : a.isFinite = true) (hb : b.isFinite = true) :
    Double.abs (Double.sub a b) = inf false ∨
      ∃ r : ℚ, 0 ≤ r ∧ roundMag r = r ∧ r < overflowBound ∧
        Double.abs (Double.sub a b) = fin false r := by
  have hv := sub_valid a b
  cases a <;> cases b <;> simp [Double.isFinite] at ha hb
  rename_i s m t n
  cases h : Double.sub (fin s m) (fin t n) with
  | nan =>
    exfalso
    have : Double.sub (fin s m) (fin t n)
        = ofSigned (s && !t) ((fin s m).toRat + (Double.neg (fin t n)).toRat) := rfl
    rw [this] at h
    unfold ofSigned ofRat at h
    split_ifs at h
  | inf u => left; rfl
  | fin u r =>
    right
    rw [h] at hv
    exact ⟨r, hv.1, hv.2.1, hv.2.2, rfl⟩

theorem isEqual_fin_eq {a b : Double} (ha : a.isFinite = true) (hb : b.isFinite = true)
    (epsilon : Double) :
    isEqual a b epsilon = Double.le (Double.abs (Double.sub a b)) epsilon := by
  cases a <;> cases b <;> simp [Double.isFinite] at ha hb
  rfl

theorem sub_self_finite {x : Double} (hx : x.isFinite = true) :
    Double.abs (Double.sub x x) = fin false 0 := by
  cases x <;> simp [Double.isFinite] at hx
  rename_i s m
  show Double.abs (ofSigned (s && !s) ((fin s m).toRat + (Double.neg (fin s m)).toRat)) = _
  rw [toRat_neg, add_neg_cancel]
  simp [ofSigned, Double.abs]


theorem dmax_abs_comm (a b : Double) (ha : a.isFinite = true) (hb : b.isFinite = true) :
    Double.max (Double.abs a) (Double.abs b) = Double.max (Double.abs b) (Double.abs a) := by
  cases a <;> cases b <;> simp [Double.isFinite] at ha hb
  rename_i s m t n
  simp only [Double.abs, Double.max, Double.lt, Double.toRat, Bool.false_eq_true, if_false,
    decide_eq_true_eq]
  rcases lt_trichotomy m n with h | h | h
  · rw [if_pos h, if_neg (not_lt.mpr h.le)]
  · subst h
    simp
  · rw [if_neg (not_lt.mpr h.le), if_pos h]

theorem deq_comm (a b : Double) : Double.eq a b = Double.eq b a := by
  cases a <;> cases b <;> simp only [Double.eq] <;> exact decide_eq_decide.mpr eq_comm

theorem isEqualRelative_fin_eq {a b : Double} (ha : a.isFinite = true) (hb : b.isFinite = true)
    (rho : Double) :
    isEqualRelative a b rho =
      if Double.lt (Double.abs a) machineEpsilon && Double.lt (Double.abs b) machineEpsilon
      then true
      else Double.le (Double.abs (Double.sub a b))
        (Double.mul rho (Double.max (Double.abs a) (Double.abs b))) := by
  cases a <;> cases b <;> simp [Double.isFinite] at ha hb
  rfl

theorem isEqualCombined_fin_eq {a b : Double} (ha : a.isFinite = true) (hb : b.isFinite = true)
    (absTol relTol : Double) :
    isEqualCombined a b absTol relTol =
      if Double.le (Double.abs (Double.sub a b)) absTol then true
      else Double.le (Double.abs (Double.sub a b))
        (Double.mul relTol (Double.max (Double.abs a) (Double.abs b))) := by
  cases a <;> cases b <;> simp [Double.isFinite] at ha hb
  rfl

theorem equality_not_finite {a b : Double} (h : ¬ (a.isFinite = true ∧ b.isFinite = true))
    (t r : Double) :
    isEqual a b t = (!(a.isnan || b.isnan) && Double.eq a b) ∧
    isEqualRelative a b r = (!(a.isnan || b.isnan) && Double.eq a b) ∧
    isEqualCombined a b t r = (!(a.isnan || b.isnan) && Double.eq a b) := by
  cases a <;> cases b <;> simp [Double.isFinite] at h <;>
    simp [isEqual, isEqualRelative, isEqualCombined, Double.isnan, Double.isinf, Double.eq]

theorem dle_trans {x y z : Double} (h1 : Double.le x y = true)
    (h2 : Double.le y z = true) : Double.le x z = true := by
  cases x <;> cases y <;> cases z <;> simp_all [Double.lt, Double.le]
  · rename_i s t u
    cases s <;> cases t <;> cases u <;> simp_all
  · linarith

/-- Dividing a magnitude (`+infinity` or finite and non-negative) by a positive finite value gives
`+infinity` or a finite non-negative value, never NaN. -/
theorem div_magnitude_cases {D : Double} {m : ℚ} (hm : 0 < m)
    (hD : D = inf false ∨ ∃ r : ℚ, 0 ≤ r ∧ D = fin false r) :
    Double.div D (fin false m) = inf false ∨
      ∃ q : ℚ, 0 ≤ q ∧ Double.div D (fin false m) = fin false q := by
  rcases hD with h | ⟨r, hr, h⟩
  · left
    rw [h]
    rfl
  · rw [h]
    have hne : m ≠ 0 := ne_of_gt hm
    simp only [Double.div, hne, if_false, Bool.xor_false, ofRat]
    split_ifs
    · left; rfl
    · right
      exact ⟨_, roundMag_nonneg (div_nonneg hr hm.le), rfl⟩

/-- A finite value that is not below the machine epsilon in magnitude has magnitude at least
`2^-52`. -/
theorem mag_ge_of_not_lt_machineEpsilon {s : Bool} {m : ℚ}
    (h : Double.lt (Double.abs (fin s m)) machineEpsilon = false) : (2 : ℚ) ^ (-52 : ℤ) ≤ m := by
  simpa [Double.abs, machineEpsilon, Double.lt, Double.toRat] using h

/-- Core of the comparison between the two relative tests: if the quotient `D / d` is strictly
below `rho`, then `D` is at most `rho * M` for every `M >= d > 0`, all in double arithmetic. -/
theorem le_mul_of_div_lt {D rho : Double} {d M : ℚ} (hd : 0 < d) (hM : d ≤ M)
    (hD : D = inf false ∨ ∃ r : ℚ, 0 ≤ r ∧ roundMag r = r ∧ D = fin false r)
    (hr : rho.Valid) (h : Double.lt (Double.div D (fin false d)) rho = true) :
    Double.le D (Double.mul rho (fin false M)) = true := by
  have hMpos : 0 < M := lt_of_lt_of_le hd hM
  have hMne : M ≠ 0 := ne_of_gt hMpos
  have hdne : d ≠ 0 := ne_of_gt hd
  rcases hD with hD | ⟨r, hr0, hrr, hD⟩
  · rw [hD] at h
    cases rho <;> simp [Double.div, Double.lt] at h
  · rw [hD] at h ⊢
    simp only [Double.div, hdne, if_false, Bool.xor_false, ofRat] at h
    by_cases hov : overflowBound ≤ roundMag (r / d)
    · rw [if_pos hov] at h
      cases rho <;> simp [Double.lt] at h
    · rw [if_neg hov] at h
      cases rho with
      | nan => simp [Double.lt] at h
      | inf u =>
        have hu : u = false := by simpa [Double.lt] using h
        subst hu
        simp [Double.mul, hMne, Double.le]
      | fin u e =>
        obtain ⟨he0, her, _⟩ := hr
        have hlt : roundMag (r / d) < (fin u e).toRat := by
          simpa [Double.lt, Double.toRat] using h
        have hq0 : 0 ≤ roundMag (r / d) := roundMag_nonneg (div_nonneg hr0 hd.le)
        have hu : u = false := by
          cases u
          · rfl
          · simp only [Double.toRat, if_true] at hlt
            linarith
        subst hu
        simp only [Double.toRat, Bool.false_eq_true, if_false] at hlt
        have hqe : r / d < e := by
          by_contra hc
          have := roundMag_mono he0 (not_lt.mp hc)
          rw [her] at this
          linarith
        have hre : r ≤ e * M := by
          have h1 : r < e * d := (div_lt_iff₀ hd).mp hqe
          have h2 : e * d ≤ e * M := mul_le_mul_of_nonneg_left hM he0
          linarith
        have hmono := roundMag_mono hr0 hre
        rw [hrr] at hmono
        simp only [Double.mul, Bool.xor_false, ofRat]
        split_ifs
        · simp [Double.le]
        · simpa [Double.le, Double.toRat] using hmono

/-! ## NaN propagation and monotonicity of multiplication -/

theorem dle_eq_not_dlt {x y : Double} (hx : x.isnan = false) (hy : y.isnan = false) :
    Double.le x y = !Double.lt y x := by
  cases x <;> cases y <;> simp [Double.isnan] at hx hy <;> simp [Double.le, Double.lt]
  · rename_i s t
    cases s <;> cases t <;> rfl
  · rename_i s m t n
    by_cases h : (fin s m).toRat ≤ (fin t n).toRat
    · simp [h, not_lt.mpr h]
    · simp [h, not_le.mp h]

theorem ofSigned_isnan (z : Bool) (q : ℚ) : (ofSigned z q).isnan = false := by
  unfold ofSigned ofRat
  split_ifs <;> rfl

/-- A sum of two non-NaN doubles is NaN exactly for two infinities of opposite sign. -/
theorem add_isnan_iff {b e : Double} (hb : b.isnan = false) (he : e.isnan = false) :
    (Double.add b e).isnan = true ↔ ∃ s, b = inf s ∧ e = inf (!s) := by
  cases b <;> cases e <;> simp [Double.isnan] at hb he
  · rename_i s t
    cases s <;> cases t <;> simp [Double.add, Double.isnan]
  · simp [Double.add, Double.isnan]
  · simp [Double.add, Double.isnan]
  · rename_i s m t n
    show (ofSigned _ _).isnan = true ↔ _
    rw [ofSigned_isnan]
    simp

theorem neg_isnan (e : Double) : (Double.neg e).isnan = e.isnan := by
  cases e <;> rfl

/-- A difference of two non-NaN doubles is NaN exactly for two infinities of the same sign. -/
theorem sub_isnan_iff {b e : Double} (hb : b.isnan = false) (he : e.isnan = false) :
    (Double.sub b e).isnan = true ↔ ∃ s, b = inf s ∧ e = inf s := by
  unfold Double.sub
  rw [add_isnan_iff hb (by rw [neg_isnan]; exact he)]
  constructor
  · rintro ⟨s, h1, h2⟩
    refine ⟨s, h1, ?_⟩
    cases e <;> simp [Double.neg] at h2 ⊢
    rename_i t
    cases s <;> cases t <;> simp_all
  · rintro ⟨s, h1, h2⟩
    exact ⟨s, h1, by rw [h2]; rfl⟩

theorem dle_nan_right (x : Double) : Double.le x nan = false := by
  cases x <;> rfl

theorem dlt_nan_right (x : Double) : Double.lt x nan = false := by
  cases x <;> rfl

theorem add_nan_right (x : Double) : Double.add x nan = nan := by
  cases x <;> rfl

theorem dle_nan_left (x : Double) : Double.le nan x = false := by
  cases x <;> rfl

theorem dlt_nan_left (x : Double) : Double.lt nan x = false := by
  cases x <;> rfl

theorem add_nan_left (x : Double) : Double.add nan x = nan := by
  cases x <;> rfl

theorem sub_nan_left (x : Double) : Double.sub nan x = nan := by
  cases x <;> rfl

theorem sub_nan_right (x : Double) : Double.sub x nan = nan := by
  cases x <;> rfl

theorem isnan_eq_true_iff (x : Double) : x.isnan = true ↔ x = nan := by
  cases x <;> simp [Double.isnan]

theorem isnan_false_of_dle_left {x y : Double} (h : Double.le x y = true) : x.isnan = false := by
  cases x <;> cases y <;> simp_all [Double.le, Double.isnan]

theorem dle_neg_inf {x : Double} (hx : x.isnan = false) : Double.le (inf true) x = true := by
  cases x <;> simp_all [Double.le, Double.isnan]

theorem dle_pos_inf {x : Double} (hx : x.isnan = false) : Double.le x (inf false) = true := by
  cases x <;> simp_all [Double.le, Double.isnan]

theorem ofRat_isnan (s : Bool) (q : ℚ) : (ofRat s q).isnan = false := by
  unfold ofRat
  split_ifs <;> rfl

/-- Rounding is monotone on signed exact results. -/
theorem ofRat_le_ofRat {s1 s2 : Bool} {q1 q2 : ℚ} (h1 : 0 ≤ q1) (h2 : 0 ≤ q2)
    (h : (if s1 then -q1 else q1) ≤ (if s2 then -q2 else q2)) :
    Double.le (ofRat s1 q1) (ofRat s2 q2) = true := by
  have r1 := roundMag_nonneg h1
  have r2 := roundMag_nonneg h2
  have hb := overflowBound_pos
  unfold ofRat
  cases s1 <;> cases s2 <;> simp only [Bool.false_eq_true, if_false, if_true] at h
  · have hm := roundMag_mono h1 h
    split_ifs with o1 o2 o2
    · rfl
    · exact absurd (le_trans o1 hm) o2
    · rfl
    · simpa [Double.le, Double.toRat] using hm
  · have e1 : q1 = 0 := by linarith
    have e2 : q2 = 0 := by linarith
    subst e1 e2
    rw [roundMag_zero, if_neg (not_le.mpr hb), if_neg (not_le.mpr hb)]
    simp [Double.le, Double.toRat]
  · split_ifs
    · rfl
    · rfl
    · rfl
    · simp only [Double.le, Double.toRat, if_true, Bool.false_eq_true, if_false,
        decide_eq_true_eq]
      linarith
  · have hm := roundMag_mono h2 (by linarith : q2 ≤ q1)
    split_ifs with o1 o2 o2
    · rfl
    · rfl
    · exact absurd (le_trans o2 hm) o1
    · simp only [Double.le, Double.toRat, if_true, decide_eq_true_eq]
      linarith

/-- Multiplication by a fixed non-negative finite factor is monotone in the other factor, as far
as acceptance of a bound is concerned; the case `infinity * 0` is excluded. -/
theorem dle_mul_of_dle_mul {t1 t2 D : Double} {M : ℚ} (h : Double.le t1 t2 = true)
    (hv1 : t1.Valid) (hv2 : t2.Valid) (hM : 0 ≤ M) (hc : t2.isFinite = true ∨ 0 < M)
    (hD : Double.le D (Double.mul t1 (fin false M)) = true) :
    Double.le D (Double.mul t2 (fin false M)) = true := by
  have hDn := isnan_false_of_dle_left hD
  cases t1 with
  | nan => simp [Double.le] at h
  | inf s1 =>
    by_cases hM0 : M = 0
    · simp [Double.mul, hM0, dle_nan_right] at hD
    · cases t2 with
      | nan => simp [Double.le] at h
      | inf s2 =>
        have e1 : Double.mul (inf s1) (fin false M) = inf s1 := by simp [Double.mul, hM0]
        have e2 : Double.mul (inf s2) (fin false M) = inf s2 := by simp [Double.mul, hM0]
        rw [e1] at hD
        rw [e2]
        exact dle_trans hD h
      | fin s2 e2 =>
        have hs : s1 = true := by simpa [Double.le] using h
        subst hs
        have e1 : Double.mul (inf true) (fin false M) = inf true := by simp [Double.mul, hM0]
        rw [e1] at hD
        exact dle_trans hD (dle_neg_inf (ofRat_isnan _ _))
  | fin s1 e1 =>
    cases t2 with
    | nan => simp [Double.le] at h
    | inf s2 =>
      have hs : s2 = false := by simpa [Double.le] using h
      subst hs
      have hMpos : 0 < M := by
        rcases hc with hc | hc
        · simp [Double.isFinite] at hc
        · exact hc
      have e2 : Double.mul (inf false) (fin false M) = inf false := by
        simp [Double.mul, ne_of_gt hMpos]
      rw [e2]
      exact dle_pos_inf hDn
    | fin s2 e2 =>
      have hle : (fin s1 e1).toRat ≤ (fin s2 e2).toRat := by simpa [Double.le] using h
      have key : Double.le (Double.mul (fin s1 e1) (fin false M))
          (Double.mul (fin s2 e2) (fin false M)) = true := by
        simp only [Double.mul, Bool.xor_false]
        apply ofRat_le_ofRat (mul_nonneg hv1.1 hM) (mul_nonneg hv2.1 hM)
        have := mul_le_mul_of_nonneg_right hle hM
        cases s1 <;> cases s2 <;> simp only [Double.toRat, Bool.false_eq_true, if_false,
          if_true] at this ⊢ <;> linarith
      exact dle_trans hD key

/-- Magnitude of the larger of two magnitudes, for two finite doubles. -/
theorem dmax_abs_fin (s t : Bool) (m n : ℚ) :
    Double.max (Double.abs (fin s m)) (Double.abs (fin t n))
      = fin false (if m < n then n else m) := by
  by_cases h : m < n <;> simp [Double.max, Double.abs, Double.lt, Double.toRat, h]

/-! ## Arithmetic form of the byte reversal -/

theorem and_shifted_byte (x k : ℕ) : x &&& (255 <<< k) = ((x >>> k) % 256) <<< k := by
  apply Nat.eq_of_testBit_eq
  intro i
  have h255 : (255 : ℕ) = 2 ^ 8 - 1 := by norm_num
  have h256 : (256 : ℕ) = 2 ^ 8 := by norm_num
  rw [h255, h256]
  simp only [Nat.testBit_and, Nat.testBit_shiftLeft, Nat.testBit_two_pow_sub_one,
    Nat.testBit_mod_two_pow, Nat.testBit_shiftRight]
  by_cases h : k ≤ i
  · by_cases h2 : i - k < 8
    · simp [h, h2]
    · simp [h, h2]
  · simp [h]

/-- Arithmetic form of the byte reversal: the four bytes of a 32-bit word in reverse order. -/
theorem reverseBytes_eq_bytes (x : ℕ) (h : x < 2 ^ 32) :
    MNISTLoader.reverseBytes x =
      2 ^ 24 * (x % 256) + 2 ^ 16 * (x / 2 ^ 8 % 256) + 2 ^ 8 * (x / 2 ^ 16 % 256)
        + x / 2 ^ 24 := by
  have m3 : x &&& 0xFF000000 = ((x >>> 24) % 256) <<< 24 := and_shifted_byte x 24
  have m2 : x &&& 0x00FF0000 = ((x >>> 16) % 256) <<< 16 := and_shifted_byte x 16
  have m1 : x &&& 0x0000FF00 = ((x >>> 8) % 256) <<< 8 := and_shifted_byte x 8
  have m0 : x &&& 0x000000FF = ((x >>> 0) % 256) <<< 0 := and_shifted_byte x 0
  unfold MNISTLoader.reverseBytes
  rw [m3, m2, m1, m0]
  simp only [Nat.shiftLeft_eq, Nat.shiftRight_eq_div_pow, pow_zero, Nat.div_one, Nat.mul_one]
  have p3 : (x / 2 ^ 24 % 256 * 2 ^ 24 / 2 ^ 24) % 2 ^ 32 = x / 2 ^ 24 := by omega
  have p2 : (x / 2 ^ 16 % 256 * 2 ^ 16 / 2 ^ 8) % 2 ^ 32 = 2 ^ 8 * (x / 2 ^ 16 % 256) := by omega
  have p1 : (x / 2 ^ 8 % 256 * 2 ^ 8 * 2 ^ 8) % 2 ^ 32 = 2 ^ 16 * (x / 2 ^ 8 % 256) := by omega
  have p0 : (x % 256 * 2 ^ 24) % 2 ^ 32 = 2 ^ 24 * (x % 256) := by omega
  rw [p3, p2, p1, p0]
  have b3 : x / 2 ^ 24 < 2 ^ 8 := by omega
  rw [Nat.lor_comm (x / 2 ^ 24), ← Nat.mul_add_lt_is_or b3]
  have b2 : 2 ^ 8 * (x / 2 ^ 16 % 256) + x / 2 ^ 24 < 2 ^ 16 := by omega
  rw [Nat.lor_comm _ (2 ^ 16 * (x / 2 ^ 8 % 256)), ← Nat.mul_add_lt_is_or b2]
  have b1 : 2 ^ 16 * (x / 2 ^ 8 % 256) + (2 ^ 8 * (x / 2 ^ 16 % 256) + x / 2 ^ 24) < 2 ^ 24 := by
    omega
  rw [Nat.lor_comm _ (2 ^ 24 * (x % 256)), ← Nat.mul_add_lt_is_or b1]
  omega

theorem reverseBytes_lt (x : ℕ) (h : x < 2 ^ 32) : MNISTLoader.reverseBytes x < 2 ^ 32 := by
  rw [reverseBytes_eq_bytes x h]
  omega

/-- Byte view: the word with bytes `[b3, b2, b1, b0]` is sent to the word `[b0, b1, b2, b3]`. -/
theorem reverseBytes_bytes (b3 b2 b1 b0 : ℕ) (h3 : b3 < 256) (h2 : b2 < 256) (h1 : b1 < 256)
    (h0 : b0 < 256) :
    MNISTLoader.reverseBytes (2 ^ 24 * b3 + 2 ^ 16 * b2 + 2 ^ 8 * b1 + b0)
      = 2 ^ 24 * b0 + 2 ^ 16 * b1 + 2 ^ 8 * b2 + b3 := by
  rw [reverseBytes_eq_bytes _ (by omega)]
  omega

theorem reverseBytes_twice (x : ℕ) (h : x < 2 ^ 32) :
    MNISTLoader.reverseBytes (MNISTLoader.reverseBytes x) = x := by
  have hx : x = 2 ^ 24 * (x / 2 ^ 24) + 2 ^ 16 * (x / 2 ^ 16 % 256) + 2 ^ 8 * (x / 2 ^ 8 % 256)
      + x % 256 := by omega
  have h3 : x / 2 ^ 24 < 256 := by omega
  have h2 : x / 2 ^ 16 % 256 < 256 := Nat.mod_lt _ (by norm_num)
  have h1 : x / 2 ^ 8 % 256 < 256 := Nat.mod_lt _ (by norm_num)
  have h0 : x % 256 < 256 := Nat.mod_lt _ (by norm_num)
  rw [hx, reverseBytes_bytes _ _ _ _ h3 h2 h1 h0, reverseBytes_bytes _ _ _ _ h0 h1 h2 h3]

/-! ## Mirror of the tolerant orderings -/

theorem deq_of_dle_of_dle {x y : Double} (h1 : Double.le x y = true)
    (h2 : Double.le y x = true) : Double.eq x y = true := by
  cases x <;> cases y <;> simp_all [Double.le, Double.eq]
  · rename_i s t
    cases s <;> cases t <;> simp_all
  · linarith

theorem dlt_of_dle_of_ne {x y : Double} (h1 : Double.le x y = true)
    (h2 : Double.eq x y = false) : Double.lt x y = true := by
  cases x <;> cases y <;> simp_all [Double.le, Double.lt, Double.eq]
  · rename_i s t
    cases s <;> cases t <;> simp_all
  · exact lt_of_le_of_ne h1 h2

/-- Mirror of the non-strict tolerant orderings for a finite tolerance: the two rounded bounds
decide alike unless one of them equals the other operand. -/
theorem mirror_le_fin {a b : Double} (hav : a.Valid) (hbv : b.Valid)
    (ha : a.isFinite = true) (hb : b.isFinite = true) (u : Bool) (e : ℚ)
    (h1 : Double.eq a (Double.add b (fin u e)) = false)
    (h2 : Double.eq b (Double.sub a (fin u e)) = false) :
    Double.le a (Double.add b (fin u e)) = Double.le (Double.sub a (fin u e)) b := by
  cases a <;> simp [Double.isFinite] at ha
  cases b <;> simp [Double.isFinite] at hb
  rename_i s m t n
  have hX : Double.add (fin t n) (fin u e)
      = ofSigned (t && u) ((fin t n).toRat + (fin u e).toRat) := rfl
  have hY : Double.sub (fin s m) (fin u e)
      = ofSigned (s && !u) ((fin s m).toRat + -(fin u e).toRat) := by
    show ofSigned (s && !u) ((fin s m).toRat + (Double.neg (fin u e)).toRat) = _
    rw [toRat_neg]
  rw [hX] at h1 ⊢
  rw [hY] at h2 ⊢
  rw [Bool.eq_iff_iff]
  constructor
  · intro hle
    apply ofSigned_le hbv
    by_contra hc
    have hq : (fin t n).toRat + (fin u e).toRat ≤ (fin s m).toRat := by linarith [not_le.mp hc]
    have := deq_of_dle_of_dle hle (ofSigned_le hav _ hq)
    rw [h1] at this
    exact Bool.false_ne_true this
  · intro hle
    apply le_ofSigned hav
    by_contra hc
    have hq : (fin t n).toRat ≤ (fin s m).toRat + -(fin u e).toRat := by linarith [not_le.mp hc]
    have := deq_of_dle_of_dle (le_ofSigned hbv _ hq) hle
    rw [h2] at this
    exact Bool.false_ne_true this

/-- Mirror of the strict tolerant orderings for a finite tolerance. -/
theorem mirror_lt_fin {a b : Double} (hav : a.Valid) (hbv : b.Valid)
    (ha : a.isFinite = true) (hb : b.isFinite = true) (u : Bool) (e : ℚ)
    (h1 : Double.eq (Double.add a (fin u e)) b = false)
    (h2 : Double.eq a (Double.sub b (fin u e)) = false) :
    Double.lt a (Double.sub b (fin u e)) = Double.lt (Double.add a (fin u e)) b := by
  cases a <;> simp [Double.isFinite] at ha
  cases b <;> simp [Double.isFinite] at hb
  rename_i s m t n
  have hY : Double.add (fin s m) (fin u e)
      = ofSigned (s && u) ((fin s m).toRat + (fin u e).toRat) := rfl
  have hX : Double.sub (fin t n) (fin u e)
      = ofSigned (t && !u) ((fin t n).toRat + -(fin u e).toRat) := by
    show ofSigned (t && !u) ((fin t n).toRat + (Double.neg (fin u e)).toRat) = _
    rw [toRat_neg]
  rw [hY] at h1 ⊢
  rw [hX] at h2 ⊢
  rw [Bool.eq_iff_iff]
  constructor
  · intro hlt
    apply dlt_of_dle_of_ne _ h1
    apply ofSigned_le hbv
    by_contra hc
    have hq : (fin t n).toRat + -(fin u e).toRat ≤ (fin s m).toRat := by linarith [not_le.mp hc]
    rw [dlt_false_of_dle (ofSigned_le hav _ hq)] at hlt
    exact Bool.false_ne_true hlt
  · intro hlt
    apply dlt_of_dle_of_ne _ h2
    apply le_ofSigned hav
    by_contra hc
    have hq : (fin t n).toRat ≤ (fin s m).toRat + (fin u e).toRat := by linarith [not_le.mp hc]
    rw [dlt_false_of_dle (le_ofSigned hbv _ hq)] at hlt
    exact Bool.false_ne_true hlt

/-- Mirror of the tolerant orderings for a tolerance that is not finite: it holds always. -/
theorem mirror_not_finite {a b epsilon : Double} (ha : a.isFinite = true)
    (hb : b.isFinite = true) (he : epsilon.isFinite = false) :
    Double.le a (Double.add b epsilon) = Double.le (Double.sub a epsilon) b ∧
    Double.lt a (Double.sub b epsilon) = Double.lt (Double.add a epsilon) b := by
  cases a <;> simp [Double.isFinite] at ha
  cases b <;> simp [Double.isFinite] at hb
  cases epsilon with
  | nan => exact ⟨rfl, rfl⟩
  | inf u => cases u <;> exact ⟨rfl, rfl⟩
  | fin u e => simp [Double.isFinite] at he

/-! ## Agreement of the model with the expectations of `ComparisonTest.cpp` -/

/-- Expectations of the test suite that depend on rounding, evaluated in the model. -/
theorem test_suite_expectations :
    isEqual (fin false 1) (Double.add (fin false 1) (ofRat false (1 / 10 ^ 10))) DEFAULT_EPSILON
      = true ∧
    isEqual (fin false 1) (Double.add (fin false 1) (ofRat false (1 / 10 ^ 8))) DEFAULT_EPSILON
      = false ∧
    isEqualRelative (fin false (10 ^ 10))
      (Double.mul (fin false (10 ^ 10)) (Double.add (fin false 1) (ofRat false (1 / 10 ^ 10))))
      DEFAULT_RELATIVE_TOLERANCE = true ∧
    isEqualRelative (fin false (10 ^ 10))
      (Double.mul (fin false (10 ^ 10)) (Double.add (fin false 1) (ofRat false (1 / 10 ^ 8))))
      DEFAULT_RELATIVE_TOLERANCE = false ∧
    isEqualRelative (ofRat false (1 / 10 ^ 10)) (ofRat false (11 / 10 ^ 11))
      (ofRat false (2 / 10)) = true ∧
    isEqualCombined (fin false 1) (fin false 2) DEFAULT_EPSILON DEFAULT_RELATIVE_TOLERANCE
      = false ∧
    isLess (fin false 1) (Double.add (fin false 1) (ofRat false (1 / 10 ^ 10))) DEFAULT_EPSILON
      = false ∧
    isGreaterOrEqual (fin false 1) (Double.sub (fin false 1) (ofRat false (1 / 10 ^ 10)))
      DEFAULT_EPSILON = true ∧
    isZero (ofRat false (1 / 10 ^ 10)) DEFAULT_EPSILON = true ∧
    isZero (ofRat false (1 / 10 ^ 8)) DEFAULT_EPSILON = false ∧
    clamp (ofRat false (1 / 10 ^ 10)) zero (fin false 10) DEFAULT_EPSILON = zero ∧
    clamp (Double.sub (fin false 10) (ofRat false (1 / 10 ^ 10))) zero (fin false 10)
      DEFAULT_EPSILON = fin false 10 ∧
    clamp (fin false 5) (fin false 10) zero DEFAULT_EPSILON = fin false 5 ∧
    sameSign (fin false 1) (fin true 1) = false ∧
    relativeDifference (fin false 100) (fin false 110) = ofRat false (1 / 10) := by
  decide!

/-! ## Equality predicates -/

/-- C1: `isEqual(a, b, epsilon)` is false when `a` or `b` is NaN (also for two NaNs); otherwise,
when `a` or `b` is infinite, it is `a == b`, which holds exactly for two infinities of the same
sign, whatever `epsilon` is; otherwise (both finite) it is `|a - b| <= epsilon`, all operations
being those of `double`. -/
theorem isEqual_contract (a b epsilon : Double) :
    ((a.isnan = true ∨ b.isnan = true) → isEqual a b epsilon = false) ∧
    (a.isnan = false → b.isnan = false → (a.isinf = true ∨ b.isinf = true) →
      isEqual a b epsilon = Double.eq a b ∧
      (isEqual a b epsilon = true ↔ ∃ s, a = inf s ∧ b = inf s)) ∧
    (a.isFinite = true → b.isFinite = true →
      (isEqual a b epsilon = true ↔
        Double.le (Double.abs (Double.sub a b)) epsilon = true)) := by
  refine ⟨?_, ?_, ?_⟩
  · rintro (h | h) <;> cases a <;> cases b <;> simp_all [isEqual, Double.isnan]
  · intro ha hb h
    cases a <;> cases b <;>
      simp_all [isEqual, Double.isnan, Double.isinf, Double.eq]
    exact eq_comm
  · intro ha hb
    cases a <;> cases b <;>
      simp_all [isEqual, Double.isnan, Double.isinf, Double.isFinite]

/-- C1, instances from the test suite: two NaNs, opposite infinities, and the finite pair
`1.0`, `2.0`. -/
theorem isEqual_contract_witness :
    isEqual nan nan DEFAULT_EPSILON = false ∧
    (isEqual (inf false) (inf true) DEFAULT_EPSILON = Double.eq (inf false) (inf true) ∧
      (isEqual (inf false) (inf true) DEFAULT_EPSILON = true ↔
        ∃ s, inf false = inf s ∧ inf true = inf s)) ∧
    (isEqual (fin false 1) (fin false 2) DEFAULT_EPSILON = true ↔
      Double.le (Double.abs (Double.sub (fin false 1) (fin false 2))) DEFAULT_EPSILON = true) :=
  ⟨(isEqual_contract nan nan DEFAULT_EPSILON).1 (Or.inl rfl),
    (isEqual_contract (inf false) (inf true) DEFAULT_EPSILON).2.1 rfl rfl (Or.inl rfl),
    (isEqual_contract (fin false 1) (fin false 2) DEFAULT_EPSILON).2.2 rfl rfl⟩

/-- C2: `isEqualRelative(a, b, rho)` is false when `a` or `b` is NaN; otherwise, when `a` or `b`
is infinite, it is `a == b`; otherwise, when both `|a|` and `|b|` are strictly below the machine
epsilon `2^-52`, it is true for every `rho`; otherwise it is `|a - b| <= rho * max(|a|, |b|)`,
all operations being those of `double`. -/
theorem isEqualRelative_contract (a b rho : Double) :
    ((a.isnan = true ∨ b.isnan = true) → isEqualRelative a b rho = false) ∧
    (a.isnan = false → b.isnan = false → (a.isinf = true ∨ b.isinf = true) →
      isEqualRelative a b rho = Double.eq a b) ∧
    (a.isFinite = true → b.isFinite = true →
      Double.lt (Double.abs a) machineEpsilon = true →
      Double.lt (Double.abs b) machineEpsilon = true →
      isEqualRelative a b rho = true) ∧
    (a.isFinite = true → b.isFinite = true →
      ¬ (Double.lt (Double.abs a) machineEpsilon = true ∧
          Double.lt (Double.abs b) machineEpsilon = true) →
      (isEqualRelative a b rho = true ↔
        Double.le (Double.abs (Double.sub a b))
          (Double.mul rho (Double.max (Double.abs a) (Double.abs b))) = true)) ∧
    machineEpsilon = fin false (1 / 2 ^ 52) := by
  refine ⟨?_, ?_, ?_, ?_, ?_⟩
  · rintro (h | h) <;> cases a <;> cases b <;> simp_all [isEqualRelative, Double.isnan]
  · intro ha hb h
    cases a <;> cases b <;>
      simp_all [isEqualRelative, Double.isnan, Double.isinf, Double.eq]
  · intro ha hb h1 h2
    cases a <;> cases b <;>
      simp_all [isEqualRelative, Double.isnan, Double.isinf, Double.isFinite]
  · intro ha hb h
    cases a <;> cases b <;>
      simp_all [isEqualRelative, Double.isnan, Double.isinf, Double.isFinite]
  · unfold machineEpsilon
    norm_num

/-- C2, instances from the test suite: a NaN operand, opposite infinities, the pair
`1e-20`, `1e-20` below the machine epsilon, and `100`, `105` with tolerance `0.1`. -/
theorem isEqualRelative_contract_witness :
    isEqualRelative nan (fin false 1) DEFAULT_RELATIVE_TOLERANCE = false ∧
    isEqualRelative (inf false) (inf true) DEFAULT_RELATIVE_TOLERANCE
      = Double.eq (inf false) (inf true) ∧
    isEqualRelative (ofRat false (1 / 10 ^ 20)) (ofRat false (1 / 10 ^ 20))
      DEFAULT_RELATIVE_TOLERANCE = true ∧
    (isEqualRelative (fin false 100) (fin false 105) (ofRat false (1 / 10)) = true ↔
      Double.le (Double.abs (Double.sub (fin false 100) (fin false 105)))
        (Double.mul (ofRat false (1 / 10))
          (Double.max (Double.abs (fin false 100)) (Double.abs (fin false 105)))) = true) :=
  ⟨(isEqualRelative_contract nan (fin false 1) DEFAULT_RELATIVE_TOLERANCE).1 (Or.inl rfl),
    (isEqualRelative_contract (inf false) (inf true) DEFAULT_RELATIVE_TOLERANCE).2.1
      rfl rfl (Or.inl rfl),
    (isEqualRelative_contract (ofRat false (1 / 10 ^ 20)) (ofRat false (1 / 10 ^ 20))
      DEFAULT_RELATIVE_TOLERANCE).2.2.1 (by decide!) (by decide!) (by decide!) (by decide!),
    (isEqualRelative_contract (fin false 100) (fin false 105) (ofRat false (1 / 10))).2.2.2.1
      rfl rfl (by decide!)⟩

/-- C3: `isEqualCombined(a, b, absTol, relTol)` is false when `a` or `b` is NaN; when `a` or `b`
is infinite it is `a == b`; otherwise (both finite) it is true exactly when
`|a - b| <= absTol` or `|a - b| <= relTol * max(|a|, |b|)`.  In particular a passing absolute
test gives true for every `relTol`, and a passing relative test gives true for every `absTol`. -/
theorem isEqualCombined_contract (a b absTol relTol : Double) :
    ((a.isnan = true ∨ b.isnan = true) → isEqualCombined a b absTol relTol = false) ∧
    (a.isnan = false → b.isnan = false → (a.isinf = true ∨ b.isinf = true) →
      isEqualCombined a b absTol relTol = Double.eq a b) ∧
    (a.isFinite = true → b.isFinite = true →
      (isEqualCombined a b absTol relTol = true ↔
        (Double.le (Double.abs (Double.sub a b)) absTol = true ∨
          Double.le (Double.abs (Double.sub a b))
            (Double.mul relTol (Double.max (Double.abs a) (Double.abs b))) = true))) ∧
    (a.isFinite = true → b.isFinite = true →
      Double.le (Double.abs (Double.sub a b)) absTol = true →
      ∀ r : Double, isEqualCombined a b absTol r = true) ∧
    (a.isFinite = true → b.isFinite = true →
      Double.le (Double.abs (Double.sub a b))
        (Double.mul relTol (Double.max (Double.abs a) (Double.abs b))) = true →
      ∀ t : Double, isEqualCombined a b t relTol = true) := by
  refine ⟨?_, ?_, ?_, ?_, ?_⟩
  · rintro (h | h) <;> cases a <;> cases b <;> simp_all [isEqualCombined, Double.isnan]
  · intro ha hb h
    cases a <;> cases b <;>
      simp_all [isEqualCombined, Double.isnan, Double.isinf, Double.eq]
  · intro ha hb
    cases a <;> cases b <;>
      simp_all [isEqualCombined, Double.isnan, Double.isinf, Double.isFinite]
  · intro ha hb h r
    cases a <;> cases b <;>
      simp_all [isEqualCombined, Double.isnan, Double.isinf, Double.isFinite]
  · intro ha hb h t
    cases a <;> cases b <;>
      simp_all [isEqualCombined, Double.isnan, Double.isinf, Double.isFinite]

/-- C3, instances from the test suite: a NaN operand, opposite infinities, the pair `1.0`, `2.0`,
the pair `1e-15`, `2e-15` passing the absolute test with `1e-14`, and the pair `1e10`,
`1e10 * (1 + 1e-10)` passing the relative test with `1e-9`. -/
theorem isEqualCombined_contract_witness :
    isEqualCombined nan (fin false 1) DEFAULT_EPSILON DEFAULT_RELATIVE_TOLERANCE = false ∧
    isEqualCombined (inf false) (inf true) DEFAULT_EPSILON DEFAULT_RELATIVE_TOLERANCE
      = Double.eq (inf false) (inf true) ∧
    (isEqualCombined (fin false 1) (fin false 2) DEFAULT_EPSILON DEFAULT_RELATIVE_TOLERANCE = true ↔
      (Double.le (Double.abs (Double.sub (fin false 1) (fin false 2))) DEFAULT_EPSILON = true ∨
        Double.le (Double.abs (Double.sub (fin false 1) (fin false 2)))
          (Double.mul DEFAULT_RELATIVE_TOLERANCE
            (Double.max (Double.abs (fin false 1)) (Double.abs (fin false 2)))) = true)) ∧
    (∀ r : Double, isEqualCombined (ofRat false (1 / 10 ^ 15)) (ofRat false (2 / 10 ^ 15))
      (ofRat false (1 / 10 ^ 14)) r = true) ∧
    (∀ t : Double, isEqualCombined (fin false (10 ^ 10))
      (Double.mul (fin false (10 ^ 10)) (Double.add (fin false 1) (ofRat false (1 / 10 ^ 10))))
      t DEFAULT_RELATIVE_TOLERANCE = true) :=
  ⟨(isEqualCombined_contract nan (fin false 1) DEFAULT_EPSILON DEFAULT_RELATIVE_TOLERANCE).1
      (Or.inl rfl),
    (isEqualCombined_contract (inf false) (inf true) DEFAULT_EPSILON
      DEFAULT_RELATIVE_TOLERANCE).2.1 rfl rfl (Or.inl rfl),
    (isEqualCombined_contract (fin false 1) (fin false 2) DEFAULT_EPSILON
      DEFAULT_RELATIVE_TOLERANCE).2.2.1 rfl rfl,
    (isEqualCombined_contract (ofRat false (1 / 10 ^ 15)) (ofRat false (2 / 10 ^ 15))
      (ofRat false (1 / 10 ^ 14)) nan).2.2.2.1 (by decide!) (by decide!) (by decide!),
    (isEqualCombined_contract (fin false (10 ^ 10))
      (Double.mul (fin false (10 ^ 10)) (Double.add (fin false 1) (ofRat false (1 / 10 ^ 10))))
      nan DEFAULT_RELATIVE_TOLERANCE).2.2.2.2 rfl (by decide!) (by decide!)⟩

/-! ## Difference metrics -/

/-- C4 (as amended): `relativeDifference(a, b)` is NaN when `a` or `b` is NaN; when `a` or `b` is
infinite it is `0` for `a == b` and `+infinity` otherwise; when both `|a|` and `|b|` are below the
machine epsilon it is `0`; when only `|a|` is below it, it is `|a - b| / |b|`, so that
`relativeDifference(0, b) = 1` for every finite `b` with `|b|` not below the machine epsilon;
otherwise it is `|a - b| / |a|`, so that `relativeDifference(a, a + d)` and
`relativeDifference(a, a - d)` are `|d| / |a|` whenever the double subtraction
`a - (a + d)`, respectively `a - (a - d)`, has magnitude exactly `|d|`. -/
theorem relativeDifference_contract (a b : Double) :
    ((a.isnan = true ∨ b.isnan = true) → relativeDifference a b = nan) ∧
    (a.isnan = false → b.isnan = false → (a.isinf = true ∨ b.isinf = true) →
      relativeDifference a b = if Double.eq a b then zero else inf false) ∧
    (a.isFinite = true → b.isFinite = true →
      Double.lt (Double.abs a) machineEpsilon = true →
      Double.lt (Double.abs b) machineEpsilon = true →
      relativeDifference a b = zero) ∧
    (a.isFinite = true → b.isFinite = true →
      Double.lt (Double.abs a) machineEpsilon = true →
      Double.lt (Double.abs b) machineEpsilon = false →
      relativeDifference a b = Double.div (Double.abs (Double.sub a b)) (Double.abs b)) ∧
    (a.isFinite = true → b.isFinite = true →
      Double.lt (Double.abs a) machineEpsilon = false →
      relativeDifference a b = Double.div (Double.abs (Double.sub a b)) (Double.abs a)) ∧
    (b.Valid → b.isFinite = true → Double.lt (Double.abs b) machineEpsilon = false →
      relativeDifference zero b = fin false 1) ∧
    (∀ d : Double, a.isFinite = true → (Double.add a d).isFinite = true →
      Double.lt (Double.abs a) machineEpsilon = false →
      Double.abs (Double.sub a (Double.add a d)) = Double.abs d →
      relativeDifference a (Double.add a d) = Double.div (Double.abs d) (Double.abs a)) ∧
    (∀ d : Double, a.isFinite = true → (Double.sub a d).isFinite = true →
      Double.lt (Double.abs a) machineEpsilon = false →
      Double.abs (Double.sub a (Double.sub a d)) = Double.abs d →
      relativeDifference a (Double.sub a d) = Double.div (Double.abs d) (Double.abs a)) := by
  have branch5 : ∀ x y : Double, x.isFinite = true → y.isFinite = true →
      Double.lt (Double.abs x) machineEpsilon = false →
      relativeDifference x y = Double.div (Double.abs (Double.sub x y)) (Double.abs x) := by
    intro x y hx hy h
    cases x <;> cases y <;> simp [Double.isFinite] at hx hy
    rw [relativeDifference_fin, h]
    simp
  refine ⟨?_, ?_, ?_, ?_, branch5 a b, ?_, ?_, ?_⟩
  · rintro (h | h)
    · cases a <;> simp [Double.isnan] at h
      rfl
    · cases b <;> simp [Double.isnan] at h
      exact relativeDifference_nan_right a
  · intro ha hb h
    cases a <;> cases b <;> simp [Double.isnan, Double.isinf] at ha hb h <;> rfl
  · intro ha hb h1 h2
    cases a <;> cases b <;> simp [Double.isFinite] at ha hb
    rw [relativeDifference_fin, h1, h2]
    simp
  · intro ha hb h1 h2
    cases a <;> cases b <;> simp [Double.isFinite] at ha hb
    rw [relativeDifference_fin, h1, h2]
    simp
  · intro hv hb h
    cases b with
    | nan => simp [Double.isFinite] at hb
    | inf s => simp [Double.isFinite] at hb
    | fin s m =>
      obtain ⟨h0, hr, hlt⟩ := hv
      have hm : (2 : ℚ) ^ (-52 : ℤ) ≤ m := by
        simpa [Double.abs, machineEpsilon, Double.lt, Double.toRat] using h
      have hmpos : 0 < m := lt_of_lt_of_le machineEpsilon_pos hm
      have hne : m ≠ 0 := ne_of_gt hmpos
      have hsub : Double.abs (Double.sub (fin false 0) (fin s m)) = fin false m := by
        cases s <;>
          simp [Double.sub, Double.neg, Double.add, Double.toRat, ofSigned, hne,
            abs_of_pos hmpos, ofRat_of_valid _ hr hlt, Double.abs]
      have hz : Double.lt (Double.abs (fin false 0)) machineEpsilon = true := by
        simp only [Double.abs, machineEpsilon, Double.lt, Double.toRat]
        simpa using machineEpsilon_pos
      show relativeDifference (fin false 0) (fin s m) = fin false 1
      rw [relativeDifference_fin, hz, h, hsub]
      simp [Double.abs, Double.div, hne, ofRat_one]
  · intro d ha hs h hex
    rw [branch5 a _ ha hs h, hex]
  · intro d ha hs h hex
    rw [branch5 a _ ha hs h, hex]

/-- C4, instances from the test suite: a NaN operand, opposite infinities, `(0, 0)`, `(0, 1)`,
`(100, 110)`, and the offsets `100 + 10` and `100 - 10`, whose differences are exact. -/
theorem relativeDifference_contract_witness :
    relativeDifference nan (fin false 1) = nan ∧
    relativeDifference (inf false) (inf true)
      = (if Double.eq (inf false) (inf true) then zero else inf false) ∧
    relativeDifference zero zero = zero ∧
    relativeDifference zero (fin false 1)
      = Double.div (Double.abs (Double.sub zero (fin false 1))) (Double.abs (fin false 1)) ∧
    relativeDifference (fin false 100) (fin false 110)
      = Double.div (Double.abs (Double.sub (fin false 100) (fin false 110)))
          (Double.abs (fin false 100)) ∧
    relativeDifference zero (fin true 1) = fin false 1 ∧
    relativeDifference (fin false 100) (Double.add (fin false 100) (fin false 10))
      = Double.div (Double.abs (fin false 10)) (Double.abs (fin false 100)) ∧
    relativeDifference (fin false 100) (Double.sub (fin false 100) (fin false 10))
      = Double.div (Double.abs (fin false 10)) (Double.abs (fin false 100)) :=
  ⟨(relativeDifference_contract nan (fin false 1)).1 (Or.inl rfl),
    (relativeDifference_contract (inf false) (inf true)).2.1 rfl rfl (Or.inl rfl),
    (relativeDifference_contract zero zero).2.2.1 rfl rfl (by decide!) (by decide!),
    (relativeDifference_contract zero (fin false 1)).2.2.2.1 rfl rfl (by decide!) (by decide!),
    (relativeDifference_contract (fin false 100) (fin false 110)).2.2.2.2.1 rfl rfl (by decide!),
    (relativeDifference_contract zero (fin true 1)).2.2.2.2.2.1 (by decide!) rfl (by decide!),
    (relativeDifference_contract (fin false 100) zero).2.2.2.2.2.2.1 (fin false 10)
      rfl (by decide!) (by decide!) (by decide!),
    (relativeDifference_contract (fin false 100) zero).2.2.2.2.2.2.2 (fin false 10)
      rfl (by decide!) (by decide!) (by decide!)⟩

/-- C4, counterexample to the unamended claim: for `a = 1.0` and `d = 0.1` (both finite doubles,
`|a|` not below the machine epsilon) the three doubles `relativeDifference(a, a + d)`,
`relativeDifference(a, a - d)` and `|d| / |a|` are pairwise different. -/
theorem relativeDifference_offset_counterexample :
    (fin false 1).Valid ∧ (ofRat false (1 / 10)).Valid ∧
    Double.lt (Double.abs (fin false 1)) machineEpsilon = false ∧
    relativeDifference (fin false 1) (Double.add (fin false 1) (ofRat false (1 / 10)))
      = fin false (225179981368525 / 2251799813685248) ∧
    relativeDifference (fin false 1) (Double.sub (fin false 1) (ofRat false (1 / 10)))
      = fin false (900719925474099 / 9007199254740992) ∧
    Double.div (Double.abs (ofRat false (1 / 10))) (Double.abs (fin false 1))
      = fin false (3602879701896397 / 36028797018963968) ∧
    relativeDifference (fin false 1) (Double.add (fin false 1) (ofRat false (1 / 10)))
      ≠ Double.div (Double.abs (ofRat false (1 / 10))) (Double.abs (fin false 1)) ∧
    relativeDifference (fin false 1) (Double.add (fin false 1) (ofRat false (1 / 10)))
      ≠ relativeDifference (fin false 1) (Double.sub (fin false 1) (ofRat false (1 / 10))) := by
  decide!

/-! ## Clamping -/

/-- C5: for bounds with `min <= max`, `clamp(value, min, max, epsilon)` returns `min` when
`isLessOrEqual(value, min, epsilon)` holds, otherwise `max` when
`isGreaterOrEqual(value, max, epsilon)` holds, otherwise `value` itself; hence the result is
always one of `min`, `max` and `value`. -/
theorem clamp_contract (value mn mx epsilon : Double) (h : Double.le mn mx = true) :
    clamp value mn mx epsilon =
      (if isLessOrEqual value mn epsilon then mn
        else if isGreaterOrEqual value mx epsilon then mx else value) ∧
    (clamp value mn mx epsilon = mn ∨ clamp value mn mx epsilon = mx ∨
      clamp value mn mx epsilon = value) := by
  have hgt : Double.gt mn mx = false := dlt_false_of_dle h
  rw [clamp_of_not_gt value epsilon hgt]
  refine ⟨rfl, ?_⟩
  split_ifs <;> simp

/-- C5, instance: `clamp(5, 0, 10)` with the default tolerance is `5`. -/
theorem clamp_contract_witness :
    Double.le (fin false 0) (fin false 10) = true ∧
    (clamp (fin false 5) (fin false 0) (fin false 10) DEFAULT_EPSILON =
      (if isLessOrEqual (fin false 5) (fin false 0) DEFAULT_EPSILON then fin false 0
        else if isGreaterOrEqual (fin false 5) (fin false 10) DEFAULT_EPSILON then fin false 10
        else fin false 5) ∧
    (clamp (fin false 5) (fin false 0) (fin false 10) DEFAULT_EPSILON = fin false 0 ∨
      clamp (fin false 5) (fin false 0) (fin false 10) DEFAULT_EPSILON = fin false 10 ∨
      clamp (fin false 5) (fin false 0) (fin false 10) DEFAULT_EPSILON = fin false 5)) :=
  ⟨by decide!,
    clamp_contract (fin false 5) (fin false 0) (fin false 10) DEFAULT_EPSILON (by decide!)⟩

/-- C6: swap invariance of `clamp`: for bounds with `min > max`,
`clamp(v, min, max, epsilon) = clamp(v, max, min, epsilon)`; the function is total, so reversed
bounds produce a value and no error. -/
theorem clamp_swap (v mn mx epsilon : Double) (h : Double.gt mn mx = true) :
    clamp v mn mx epsilon = clamp v mx mn epsilon := by
  have h2 : Double.gt mx mn = false := dlt_false_of_dlt h
  rw [clamp_of_gt v epsilon h, clamp_of_not_gt v epsilon h2]

/-- C6, instance: `clamp(5, 10, 0)` equals `clamp(5, 0, 10)`. -/
theorem clamp_swap_witness :
    Double.gt (fin false 10) (fin false 0) = true ∧
    clamp (fin false 5) (fin false 10) (fin false 0) DEFAULT_EPSILON =
      clamp (fin false 5) (fin false 0) (fin false 10) DEFAULT_EPSILON :=
  ⟨by decide!, clamp_swap (fin false 5) (fin false 10) (fin false 0) DEFAULT_EPSILON (by decide!)⟩

/-- C7 (as amended): for bounds with `min <= max`, whenever `value` is tolerantly `<= min`
(`isLessOrEqual(value, min, epsilon)`), `clamp` returns `min`; whenever `value` is tolerantly
`>= max` (`isGreaterOrEqual(value, max, epsilon)`) and not tolerantly `<= min`, `clamp` returns
`max`. -/
theorem clamp_snap (value mn mx epsilon : Double) (h : Double.le mn mx = true) :
    (isLessOrEqual value mn epsilon = true → clamp value mn mx epsilon = mn) ∧
    (isGreaterOrEqual value mx epsilon = true → isLessOrEqual value mn epsilon = false →
      clamp value mn mx epsilon = mx) := by
  have hgt : Double.gt mn mx = false := dlt_false_of_dle h
  rw [clamp_of_not_gt value epsilon hgt]
  constructor
  · intro h1
    simp [h1]
  · intro h1 h2
    simp [h1, h2]

/-- C7, instance: `clamp(10, 0, 10, 1)` returns the lower bound for `-1` and the upper bound
for `10`. -/
theorem clamp_snap_witness :
    Double.le (fin false 0) (fin false 10) = true ∧
    ((isLessOrEqual (fin false 10) (fin false 0) (fin false 1) = true →
      clamp (fin false 10) (fin false 0) (fin false 10) (fin false 1) = fin false 0) ∧
    (isGreaterOrEqual (fin false 10) (fin false 10) (fin false 1) = true →
      isLessOrEqual (fin false 10) (fin false 0) (fin false 1) = false →
      clamp (fin false 10) (fin false 0) (fin false 10) (fin false 1) = fin false 10)) :=
  ⟨by decide!, clamp_snap (fin false 10) (fin false 0) (fin false 10) (fin false 1) (by decide!)⟩

/-- C7, counterexample to the unamended claim: with `min = 0 <= max = 1`, `epsilon = 2 >= 0` and
the finite `value = 1`, the value is tolerantly `>= max`, yet `clamp` returns `min = 0`, which
differs from `max`. -/
theorem clamp_upper_snap_counterexample :
    (fin false 1).isFinite = true ∧
    Double.le (fin false 0) (fin false 1) = true ∧
    Double.ge (fin false 2) zero = true ∧
    isGreaterOrEqual (fin false 1) (fin false 1) (fin false 2) = true ∧
    clamp (fin false 1) (fin false 0) (fin false 1) (fin false 2) = fin false 0 ∧
    Double.eq (clamp (fin false 1) (fin false 0) (fin false 1) (fin false 2)) (fin false 1)
      = false := by
  decide!

/-- C8: `clamp` stays between its bounds: for finite doubles `value`, `min`, `max` and every
`epsilon >= 0`, the result `r = clamp(value, min, max, epsilon)` satisfies `lo <= r <= hi`, where
`lo` and `hi` are the smaller and the larger of `min` and `max`. -/
theorem clamp_within_bounds (value mn mx epsilon : Double)
    (hmnv : mn.Valid) (hmxv : mx.Valid)
    (hv : value.isFinite = true) (hmn : mn.isFinite = true) (hmx : mx.isFinite = true)
    (he : Double.ge epsilon zero = true) :
    Double.le (if Double.le mn mx then mn else mx) (clamp value mn mx epsilon) = true ∧
    Double.le (clamp value mn mx epsilon) (if Double.le mn mx then mx else mn) = true := by
  -- the ordered case, to which both orders of the bounds reduce
  have key : ∀ lo hi : Double, lo.Valid → hi.Valid → lo.isFinite = true → hi.isFinite = true →
      Double.le lo hi = true →
      Double.le lo (if isLessOrEqual value lo epsilon then lo
        else if isGreaterOrEqual value hi epsilon then hi else value) = true ∧
      Double.le (if isLessOrEqual value lo epsilon then lo
        else if isGreaterOrEqual value hi epsilon then hi else value) hi = true := by
    intro lo hi hlov hhiv hlo hhi hle
    by_cases h1 : isLessOrEqual value lo epsilon = true
    · simp only [h1, if_true]
      exact ⟨dle_refl_of_finite hlo, hle⟩
    · simp only [h1, if_false]
      by_cases h2 : isGreaterOrEqual value hi epsilon = true
      · simp only [h2, if_true]
        exact ⟨hle, dle_refl_of_finite hhi⟩
      · simp only [h2, if_false]
        have h1f : Double.le value (Double.add lo epsilon) = false := by
          simpa [isLessOrEqual] using h1
        have h2f : Double.le (Double.sub hi epsilon) value = false := by
          simpa [isGreaterOrEqual, Double.ge] using h2
        exact ⟨dle_of_dle_of_not_dle hlo hv (le_add_of_nonneg hlo hlov he) h1f,
          dle_of_not_dle_of_dle hhi hv (sub_le_of_nonneg hhi hhiv he) h2f⟩
  by_cases hgt : Double.gt mn mx = true
  · have hlt : Double.lt mx mn = true := hgt
    have hle : Double.le mn mx = false := by
      have := dlt_false_of_dle (x := mn) (y := mx)
      cases hc : Double.le mn mx
      · rfl
      · rw [this hc] at hlt
        simp at hlt
    rw [clamp_of_gt value epsilon hgt, hle]
    simpa using key mx mn hmxv hmnv hmx hmn (dle_of_dlt hlt)
  · have hgt2 : Double.gt mn mx = false := by simpa using hgt
    have hle : Double.le mn mx = true := dle_of_dlt_false hmn hmx hgt2
    rw [clamp_of_not_gt value epsilon hgt2, hle]
    simpa using key mn mx hmnv hmxv hmn hmx hle

/-- C8, instance: `clamp(15, 0, 10)` with the default tolerance lies between `0` and `10`. -/
theorem clamp_within_bounds_witness :
    (fin false 0).Valid ∧ (fin false 10).Valid ∧ (fin false 15).isFinite = true ∧
    (fin false 0).isFinite = true ∧ (fin false 10).isFinite = true ∧
    Double.ge DEFAULT_EPSILON zero = true ∧
    (Double.le (if Double.le (fin false 0) (fin false 10) then fin false 0 else fin false 10)
      (clamp (fin false 15) (fin false 0) (fin false 10) DEFAULT_EPSILON) = true ∧
    Double.le (clamp (fin false 15) (fin false 0) (fin false 10) DEFAULT_EPSILON)
      (if Double.le (fin false 0) (fin false 10) then fin false 10 else fin false 0) = true) :=
  ⟨by decide!, by decide!, by decide!, by decide!, by decide!, by decide!,
    clamp_within_bounds (fin false 15) (fin false 0) (fin false 10) DEFAULT_EPSILON
      (by decide!) (by decide!) (by decide!) (by decide!) (by decide!) (by decide!)⟩

/-! ## Sign agreement -/

/-- C9: `sameSign(a, b)` is true if and only if both are effectively zero under the default
tolerance (`|a| <= 1e-9` and `|b| <= 1e-9`), or both are `>= 0`, or both are `< 0`; the constant
`1e-9` is the double nearest to the decimal literal. -/
theorem sameSign_contract (a b : Double) :
    (sameSign a b = true ↔
      (Double.le (Double.abs a) DEFAULT_EPSILON = true ∧
        Double.le (Double.abs b) DEFAULT_EPSILON = true) ∨
      (Double.ge a zero = true ∧ Double.ge b zero = true) ∨
      (Double.lt a zero = true ∧ Double.lt b zero = true)) ∧
    DEFAULT_EPSILON = fin false (4835703278458517 / 4835703278458516698824704) := by
  refine ⟨?_, DEFAULT_EPSILON_value⟩
  unfold sameSign isZero
  cases h1 : Double.le (Double.abs a) DEFAULT_EPSILON <;>
    cases h2 : Double.le (Double.abs b) DEFAULT_EPSILON <;>
    cases h3 : Double.ge a zero <;> cases h4 : Double.ge b zero <;>
    cases h5 : Double.lt a zero <;> cases h6 : Double.lt b zero <;> simp

/-- C10 (as amended): zero agrees in sign with the non-negative values and with the values
within the default tolerance: for every `b` with `b >= 0` or `|b| <= 1e-9`, `sameSign(0.0, b)`
and `sameSign(b, 0.0)` are true; for every `b < 0` with `|b| > 1e-9` both are false. -/
theorem sameSign_zero (b : Double) :
    ((Double.ge b zero = true ∨ isZero b DEFAULT_EPSILON = true) →
      sameSign zero b = true ∧ sameSign b zero = true) ∧
    (Double.lt b zero = true → isZero b DEFAULT_EPSILON = false →
      sameSign zero b = false ∧ sameSign b zero = false) := by
  have hz := isZero_zero_default
  have hge : Double.ge zero zero = true := by decide!
  have hlt : Double.lt zero zero = false := by decide!
  constructor
  · rintro (h | h)
    · simp [sameSign, hz, hge, hlt, h]
    · simp [sameSign, hz, hge, hlt, h]
  · intro h1 h2
    have h3 : Double.ge b zero = false := dle_false_of_dlt h1
    simp [sameSign, hz, hge, hlt, h1, h2, h3]

/-- C10, instances: `sameSign(0.0, 1e-10)` and `sameSign(1e-10, 0.0)` are true (test suite);
`sameSign(0.0, -1.0)` and `sameSign(-1.0, 0.0)` are false. -/
theorem sameSign_zero_witness :
    (sameSign zero (ofRat false (1 / 10 ^ 10)) = true ∧
      sameSign (ofRat false (1 / 10 ^ 10)) zero = true) ∧
    (sameSign zero (fin true 1) = false ∧ sameSign (fin true 1) zero = false) :=
  ⟨(sameSign_zero (ofRat false (1 / 10 ^ 10))).1 (Or.inl (by decide!)),
    (sameSign_zero (fin true 1)).2 (by decide!) (by decide!)⟩

/-- C10, counterexample to the unamended claim: `sameSign(0.0, -1.0)` and `sameSign(-1.0, 0.0)`
are false although `-1.0` is finite. -/
theorem sameSign_zero_negative_counterexample :
    (fin true 1).isFinite = true ∧ (fin true 1).Valid ∧
    sameSign zero (fin true 1) = false ∧ sameSign (fin true 1) zero = false := by
  decide!

/-! ## Tolerant ordering -/

/-- C11 (as amended): the tolerant orderings are `isLess: a < b - epsilon`,
`isLessOrEqual: a <= b + epsilon`, `isGreater: a > b + epsilon` and
`isGreaterOrEqual: a >= b - epsilon`, in double arithmetic.  For all finite `a`, `b` and every
`epsilon`, `isLessOrEqual(a, b, epsilon) = isGreaterOrEqual(b, a, epsilon)` unless a rounded bound
equals the other operand (`a == b + epsilon` or `b == a - epsilon`), and
`isLess(a, b, epsilon) = isGreater(b, a, epsilon)` unless `a == b - epsilon` or
`b == a + epsilon`.  Where a rounded bound does equal the other operand, the mirror still holds
if the two sums involved are exact (finite and unrounded). -/
theorem tolerant_order_mirror (a b epsilon : Double)
    (hav : a.Valid) (hbv : b.Valid) (ha : a.isFinite = true) (hb : b.isFinite = true) :
    isLess a b epsilon = Double.lt a (Double.sub b epsilon) ∧
    isLessOrEqual a b epsilon = Double.le a (Double.add b epsilon) ∧
    isGreater a b epsilon = Double.gt a (Double.add b epsilon) ∧
    isGreaterOrEqual a b epsilon = Double.ge a (Double.sub b epsilon) ∧
    (Double.eq a (Double.add b epsilon) = false → Double.eq b (Double.sub a epsilon) = false →
      isLessOrEqual a b epsilon = isGreaterOrEqual b a epsilon) ∧
    (Double.eq a (Double.sub b epsilon) = false → Double.eq b (Double.add a epsilon) = false →
      isLess a b epsilon = isGreater b a epsilon) ∧
    ((Double.add b epsilon).isFinite = true →
      (Double.add b epsilon).toRat = b.toRat + epsilon.toRat →
      (Double.sub a epsilon).isFinite = true →
      (Double.sub a epsilon).toRat = a.toRat - epsilon.toRat →
      isLessOrEqual a b epsilon = isGreaterOrEqual b a epsilon) ∧
    ((Double.sub b epsilon).isFinite = true →
      (Double.sub b epsilon).toRat = b.toRat - epsilon.toRat →
      (Double.add a epsilon).isFinite = true →
      (Double.add a epsilon).toRat = a.toRat + epsilon.toRat →
      isLess a b epsilon = isGreater b a epsilon) := by
  refine ⟨rfl, rfl, rfl, rfl, ?_, ?_, ?_, ?_⟩
  · intro h1 h2
    show Double.le a (Double.add b epsilon) = Double.le (Double.sub a epsilon) b
    cases he : epsilon.isFinite
    · exact (mirror_not_finite ha hb he).1
    · cases epsilon <;> simp [Double.isFinite] at he
      exact mirror_le_fin hav hbv ha hb _ _ h1 h2
  · intro h1 h2
    show Double.lt a (Double.sub b epsilon) = Double.lt (Double.add a epsilon) b
    cases he : epsilon.isFinite
    · exact (mirror_not_finite ha hb he).2
    · cases epsilon <;> simp [Double.isFinite] at he
      rw [deq_comm] at h2
      exact mirror_lt_fin hav hbv ha hb _ _ h2 h1
  · intro f1 e1 f2 e2
    show Double.le a (Double.add b epsilon) = Double.le (Double.sub a epsilon) b
    rw [dle_of_finite ha f1, dle_of_finite f2 hb, e1, e2]
    apply decide_eq_decide.mpr
    constructor <;> intro h <;> linarith
  · intro f1 e1 f2 e2
    show Double.lt a (Double.sub b epsilon) = Double.lt (Double.add a epsilon) b
    rw [dlt_of_finite ha f1, dlt_of_finite f2 hb, e1, e2]
    apply decide_eq_decide.mpr
    constructor <;> intro h <;> linarith

/-- C11, instances: the test-suite calls on `a = 1`, `b = 2` with the default tolerance `1e-9`,
where both shifted bounds are rounded and neither equals the other operand, and the same pair
with `epsilon = 0.5`, where all four sums are exact. -/
theorem tolerant_order_mirror_witness :
    (fin false 1).Valid ∧ (fin false 2).Valid ∧
    (fin false 1).isFinite = true ∧ (fin false 2).isFinite = true ∧
    isLessOrEqual (fin false 1) (fin false 2) DEFAULT_EPSILON
      = isGreaterOrEqual (fin false 2) (fin false 1) DEFAULT_EPSILON ∧
    isLess (fin false 1) (fin false 2) DEFAULT_EPSILON
      = isGreater (fin false 2) (fin false 1) DEFAULT_EPSILON ∧
    isLessOrEqual (fin false 1) (fin false 2) (fin false (1 / 2))
      = isGreaterOrEqual (fin false 2) (fin false 1) (fin false (1 / 2)) ∧
    isLess (fin false 1) (fin false 2) (fin false (1 / 2))
      = isGreater (fin false 2) (fin false 1) (fin false (1 / 2)) :=
  ⟨by decide!, by decide!, rfl, rfl,
    (tolerant_order_mirror (fin false 1) (fin false 2) DEFAULT_EPSILON
      (by decide!) (by decide!) rfl rfl).2.2.2.2.1 (by decide!) (by decide!),
    (tolerant_order_mirror (fin false 1) (fin false 2) DEFAULT_EPSILON
      (by decide!) (by decide!) rfl rfl).2.2.2.2.2.1 (by decide!) (by decide!),
    (tolerant_order_mirror (fin false 1) (fin false 2) (fin false (1 / 2))
      (by decide!) (by decide!) rfl rfl).2.2.2.2.2.2.1
      (by decide!) (by decide!) (by decide!) (by decide!),
    (tolerant_order_mirror (fin false 1) (fin false 2) (fin false (1 / 2))
      (by decide!) (by decide!) rfl rfl).2.2.2.2.2.2.2
      (by decide!) (by decide!) (by decide!) (by decide!)⟩

/-- C11, counterexample to the unamended claim: with `epsilon = 2^-53 >= 0`, for `a = 1 + 2^-52`
and `b = 1` the sum `b + epsilon` rounds down to `1`, so `isLessOrEqual(a, b, epsilon)` is false
while `isGreaterOrEqual(b, a, epsilon)` is true; for `a = 1` and `b = 1 + 2^-52`,
`isLess(a, b, epsilon)` is false while `isGreater(b, a, epsilon)` is true. -/
theorem tolerant_order_mirror_counterexample :
    (fin false 1).Valid ∧ (fin false (1 + 1 / 2 ^ 52)).Valid ∧ (fin false (1 / 2 ^ 53)).Valid ∧
    Double.ge (fin false (1 / 2 ^ 53)) zero = true ∧
    isLessOrEqual (fin false (1 + 1 / 2 ^ 52)) (fin false 1) (fin false (1 / 2 ^ 53)) = false ∧
    isGreaterOrEqual (fin false 1) (fin false (1 + 1 / 2 ^ 52)) (fin false (1 / 2 ^ 53)) = true ∧
    isLess (fin false 1) (fin false (1 + 1 / 2 ^ 52)) (fin false (1 / 2 ^ 53)) = false ∧
    isGreater (fin false (1 + 1 / 2 ^ 52)) (fin false 1) (fin false (1 / 2 ^ 53)) = true := by
  decide!

/-- C13: reflexivity depends only on the sign of the tolerance: for every finite `x`,
`isEqual(x, x, epsilon)` is true for every `epsilon >= 0`; for every negative `epsilon`,
`isEqual(a, b, epsilon)` is false for all finite `a` and `b`, including `a = b`. -/
theorem isEqual_reflexive_iff_tolerance_sign (x a b epsilon : Double) :
    (x.isFinite = true → Double.ge epsilon zero = true → isEqual x x epsilon = true) ∧
    (a.isFinite = true → b.isFinite = true → Double.lt epsilon zero = true →
      isEqual a b epsilon = false) := by
  constructor
  · intro hx he
    have h := (isEqual_fin_eq hx hx epsilon)
    rw [h, sub_self_finite hx]
    exact he
  · intro ha hb he
    rw [isEqual_fin_eq ha hb epsilon]
    rcases abs_sub_finite_cases ha hb with h | ⟨r, hr0, _, _, h⟩
    · rw [h]
      cases epsilon <;> simp_all [Double.le, Double.lt, zero]
    · rw [h]
      cases epsilon with
      | nan => rfl
      | inf t => simpa [Double.le, Double.lt, zero] using he
      | fin t e =>
        have he' : (fin t e).toRat < 0 := by
          simpa [Double.lt, zero, Double.toRat] using he
        simp only [Double.le, decide_eq_false_iff_not, not_le]
        simp only [Double.toRat, Bool.false_eq_true, if_false] at he' ⊢
        linarith

/-- C13, instances: `isEqual(1, 1)` with the default tolerance, and `isEqual(1, 1, -1)`. -/
theorem isEqual_reflexive_iff_tolerance_sign_witness :
    isEqual (fin false 1) (fin false 1) DEFAULT_EPSILON = true ∧
    isEqual (fin false 1) (fin false 1) (fin true 1) = false :=
  ⟨(isEqual_reflexive_iff_tolerance_sign (fin false 1) (fin false 1) (fin false 1)
      DEFAULT_EPSILON).1 rfl (by decide!),
    (isEqual_reflexive_iff_tolerance_sign (fin false 1) (fin false 1) (fin false 1)
      (fin true 1)).2 rfl rfl (by decide!)⟩

/-- C14 (as amended): `isEqualCombined` accepts whatever `isEqual` accepts, and whatever
`isEqualRelative` accepts unless both `|a|` and `|b|` are below the machine epsilon: for every
`a`, `b`, `absTol` and `relTol`, if `isEqual(a, b, absTol)` is true, or
`isEqualRelative(a, b, relTol)` is true while `|a|` and `|b|` are not both below the machine
epsilon, then `isEqualCombined(a, b, absTol, relTol)` is true. -/
theorem isEqualCombined_accepts (a b absTol relTol : Double) :
    (isEqual a b absTol = true → isEqualCombined a b absTol relTol = true) ∧
    (isEqualRelative a b relTol = true →
      ¬ (Double.lt (Double.abs a) machineEpsilon = true ∧
          Double.lt (Double.abs b) machineEpsilon = true) →
      isEqualCombined a b absTol relTol = true) := by
  by_cases h : a.isFinite = true ∧ b.isFinite = true
  · obtain ⟨ha, hb⟩ := h
    rw [isEqual_fin_eq ha hb, isEqualRelative_fin_eq ha hb, isEqualCombined_fin_eq ha hb]
    constructor
    · intro h1
      simp [h1]
    · intro h1 h2
      have h3 : (Double.lt (Double.abs a) machineEpsilon &&
          Double.lt (Double.abs b) machineEpsilon) = false := by
        simpa using h2
      rw [h3] at h1
      simp only [Bool.false_eq_true, if_false] at h1
      rw [h1]
      simp
  · obtain ⟨e1, e2, e3⟩ := equality_not_finite h absTol relTol
    rw [e1, e2, e3]
    exact ⟨fun h1 => h1, fun h1 _ => h1⟩

/-- C14, instances: the pair `1.0`, `1.0 + 1e-10` accepted by `isEqual`, and the pair `100`,
`105` accepted by `isEqualRelative` with tolerance `0.1`. -/
theorem isEqualCombined_accepts_witness :
    isEqualCombined (fin false 1) (Double.add (fin false 1) (ofRat false (1 / 10 ^ 10)))
      DEFAULT_EPSILON DEFAULT_RELATIVE_TOLERANCE = true ∧
    isEqualCombined (fin false 100) (fin false 105) DEFAULT_EPSILON (ofRat false (1 / 10))
      = true :=
  ⟨(isEqualCombined_accepts (fin false 1) (Double.add (fin false 1) (ofRat false (1 / 10 ^ 10)))
      DEFAULT_EPSILON DEFAULT_RELATIVE_TOLERANCE).1 (by decide!),
    (isEqualCombined_accepts (fin false 100) (fin false 105) DEFAULT_EPSILON
      (ofRat false (1 / 10))).2 (by decide!) (by decide!)⟩

/-- C14, counterexample to the unamended claim: for `a = 2^-53` and `b = 2^-54`, both below the
machine epsilon, `isEqualRelative(a, b, 0)` is true, while `isEqualCombined(a, b, 0, 0)` is
false. -/
theorem isEqualCombined_tiny_counterexample :
    (fin false (1 / 2 ^ 53)).Valid ∧ (fin false (1 / 2 ^ 54)).Valid ∧
    isEqualRelative (fin false (1 / 2 ^ 53)) (fin false (1 / 2 ^ 54)) zero = true ∧
    isEqual (fin false (1 / 2 ^ 53)) (fin false (1 / 2 ^ 54)) zero = false ∧
    isEqualCombined (fin false (1 / 2 ^ 53)) (fin false (1 / 2 ^ 54)) zero zero = false := by
  decide!

/-- C15: the equality predicates are symmetric in their operands, for every `a`, `b` and every
tolerance: `isEqualRelative(a, b, rho) = isEqualRelative(b, a, rho)`,
`isEqual(a, b, epsilon) = isEqual(b, a, epsilon)` and
`isEqualCombined(a, b, absTol, relTol) = isEqualCombined(b, a, absTol, relTol)`. -/
theorem equality_predicates_symmetric (a b epsilon rho absTol relTol : Double) :
    isEqualRelative a b rho = isEqualRelative b a rho ∧
    isEqual a b epsilon = isEqual b a epsilon ∧
    isEqualCombined a b absTol relTol = isEqualCombined b a absTol relTol := by
  by_cases h : a.isFinite = true ∧ b.isFinite = true
  · obtain ⟨ha, hb⟩ := h
    refine ⟨?_, ?_, ?_⟩
    · rw [isEqualRelative_fin_eq ha hb, isEqualRelative_fin_eq hb ha, abs_sub_comm a b,
        dmax_abs_comm a b ha hb, Bool.and_comm]
    · rw [isEqual_fin_eq ha hb, isEqual_fin_eq hb ha, abs_sub_comm a b]
    · rw [isEqualCombined_fin_eq ha hb, isEqualCombined_fin_eq hb ha, abs_sub_comm a b,
        dmax_abs_comm a b ha hb]
  · have h' : ¬ (b.isFinite = true ∧ a.isFinite = true) := fun hc => h ⟨hc.2, hc.1⟩
    obtain ⟨e1, e2, e3⟩ := equality_not_finite h epsilon rho
    obtain ⟨f1, f2, f3⟩ := equality_not_finite h' epsilon rho
    obtain ⟨_, _, e4⟩ := equality_not_finite h absTol relTol
    obtain ⟨_, _, f4⟩ := equality_not_finite h' absTol relTol
    rw [e1, e2, e4, f1, f2, f4, deq_comm a b, Bool.or_comm a.isnan b.isnan]
    exact ⟨rfl, rfl, rfl⟩

/-! ## Symmetry of the difference metrics -/

/-- C16: `absoluteDifference` is symmetric: `absoluteDifference(a, b) = absoluteDifference(b, a)`,
both being `|a - b|`; this holds for all doubles, in particular for all finite ones. -/
theorem absoluteDifference_symmetric (a b : Double) :
    absoluteDifference a b = absoluteDifference b a ∧
    absoluteDifference a b = Double.abs (Double.sub a b) ∧
    absoluteDifference b a = Double.abs (Double.sub a b) :=
  ⟨abs_sub_comm a b, rfl, abs_sub_comm b a⟩

/-- C17: `relativeDifference` is not symmetric: for `a = 100` and `b = 110`,
`relativeDifference(100, 110)` is the double `1/10` and `relativeDifference(110, 100)` is the
double `1/11` (about `0.0909`), and the two differ; so there are finite `a`, `b` with
`relativeDifference(a, b) != relativeDifference(b, a)`. -/
theorem relativeDifference_not_symmetric :
    relativeDifference (fin false 100) (fin false 110)
      = Double.div (fin false 1) (fin false 10) ∧
    relativeDifference (fin false 110) (fin false 100)
      = Double.div (fin false 1) (fin false 11) ∧
    Double.div (fin false 1) (fin false 10)
      = fin false (3602879701896397 / 36028797018963968) ∧
    Double.div (fin false 1) (fin false 11)
      = fin false (3275345183542179 / 36028797018963968) ∧
    (909 / 10000 < (relativeDifference (fin false 110) (fin false 100)).toRat ∧
      (relativeDifference (fin false 110) (fin false 100)).toRat < 910 / 10000) ∧
    Double.eq (relativeDifference (fin false 100) (fin false 110))
      (relativeDifference (fin false 110) (fin false 100)) = false ∧
    (∃ a b : Double, a.isFinite = true ∧ b.isFinite = true ∧ a.Valid ∧ b.Valid ∧
      Double.eq (relativeDifference a b) (relativeDifference b a) = false) := by
  refine ⟨by decide!, by decide!, by decide!, by decide!, by decide!, by decide!, ?_⟩
  exact ⟨fin false 100, fin false 110, by decide!⟩

/-! ## Zero tests -/

/-- C18: `isZeroRelative` treats its tolerance as an absolute bound: for every value `v` and every
tolerance `t`, `isZeroRelative(v, t) = isZero(v, t)`, both are true if and only if
`|v| <= t`, and both are false when `v` is NaN. -/
theorem isZeroRelative_eq_isZero (v t : Double) :
    isZeroRelative v t = isZero v t ∧
    (isZero v t = true ↔ Double.le (Double.abs v) t = true) ∧
    (isZeroRelative v t = true ↔ Double.le (Double.abs v) t = true) ∧
    (v.isnan = true → isZero v t = false ∧ isZeroRelative v t = false) := by
  refine ⟨rfl, Iff.rfl, Iff.rfl, ?_⟩
  intro h
  cases v <;> simp [Double.isnan] at h
  cases t <;> exact ⟨rfl, rfl⟩

/-! ## Safety and bounds of `relativeDifference` -/

/-- C19 (as amended): `relativeDifference` never divides by zero: whenever a division branch is
reached, `a` and `b` are finite and the divisor (`|b|` in the fallback branch, `|a|` in the final
branch) is at least the machine epsilon `2^-52`, hence strictly positive; consequently for all
finite `a` and `b` the result is never NaN and never negative: it is a finite non-negative number
or `+infinity`. -/
theorem relativeDifference_divisor_positive (a b : Double) :
    (a.isnan = false → b.isnan = false → a.isinf = false → b.isinf = false →
      ¬ (Double.lt (Double.abs a) machineEpsilon = true ∧
          Double.lt (Double.abs b) machineEpsilon = true) →
      a.isFinite = true ∧ b.isFinite = true ∧
      (Double.lt (Double.abs a) machineEpsilon = true →
        relativeDifference a b = Double.div (Double.abs (Double.sub a b)) (Double.abs b) ∧
        Double.le machineEpsilon (Double.abs b) = true ∧
        Double.lt zero (Double.abs b) = true) ∧
      (Double.lt (Double.abs a) machineEpsilon = false →
        relativeDifference a b = Double.div (Double.abs (Double.sub a b)) (Double.abs a) ∧
        Double.le machineEpsilon (Double.abs a) = true ∧
        Double.lt zero (Double.abs a) = true)) ∧
    (a.isFinite = true → b.isFinite = true →
      (relativeDifference a b).isnan = false ∧
      Double.le zero (relativeDifference a b) = true ∧
      (relativeDifference a b = inf false ∨
        ∃ q : ℚ, 0 ≤ q ∧ relativeDifference a b = fin false q)) := by
  have hpos := machineEpsilon_pos
  have key : ∀ (s t : Bool) (m n : ℚ),
      relativeDifference (fin s m) (fin t n) = inf false ∨
        ∃ q : ℚ, 0 ≤ q ∧ relativeDifference (fin s m) (fin t n) = fin false q := by
    intro s t m n
    have hD : Double.abs (Double.sub (fin s m) (fin t n)) = inf false ∨
        ∃ r : ℚ, 0 ≤ r ∧ Double.abs (Double.sub (fin s m) (fin t n)) = fin false r := by
      rcases abs_sub_finite_cases (a := fin s m) (b := fin t n) rfl rfl with h | ⟨r, h0, _, _, h⟩
      · exact Or.inl h
      · exact Or.inr ⟨r, h0, h⟩
    rw [relativeDifference_fin]
    cases h1 : Double.lt (Double.abs (fin s m)) machineEpsilon <;>
      cases h2 : Double.lt (Double.abs (fin t n)) machineEpsilon <;>
      simp only [Bool.and_true, Bool.and_false, Bool.false_eq_true, if_false, if_true]
    · exact div_magnitude_cases (lt_of_lt_of_le hpos (mag_ge_of_not_lt_machineEpsilon h1)) hD
    · exact div_magnitude_cases (lt_of_lt_of_le hpos (mag_ge_of_not_lt_machineEpsilon h1)) hD
    · exact div_magnitude_cases (lt_of_lt_of_le hpos (mag_ge_of_not_lt_machineEpsilon h2)) hD
    · exact Or.inr ⟨0, le_refl 0, rfl⟩
  constructor
  · intro na nb ia ib hboth
    cases a <;> simp [Double.isnan, Double.isinf] at na ia
    cases b <;> simp [Double.isnan, Double.isinf] at nb ib
    rename_i s m t n
    refine ⟨rfl, rfl, ?_, ?_⟩
    · intro h1
      have h2 : Double.lt (Double.abs (fin t n)) machineEpsilon = false := by
        cases hc : Double.lt (Double.abs (fin t n)) machineEpsilon
        · rfl
        · exact absurd ⟨h1, hc⟩ hboth
      have hn := mag_ge_of_not_lt_machineEpsilon h2
      refine ⟨?_, ?_, ?_⟩
      · rw [relativeDifference_fin, h1, h2]
        simp
      · simpa [Double.abs, machineEpsilon, Double.le, Double.toRat] using hn
      · have : 0 < n := lt_of_lt_of_le hpos hn
        simpa [Double.abs, zero, Double.lt, Double.toRat] using this
    · intro h1
      have hm := mag_ge_of_not_lt_machineEpsilon h1
      refine ⟨?_, ?_, ?_⟩
      · rw [relativeDifference_fin, h1]
        simp
      · simpa [Double.abs, machineEpsilon, Double.le, Double.toRat] using hm
      · have : 0 < m := lt_of_lt_of_le hpos hm
        simpa [Double.abs, zero, Double.lt, Double.toRat] using this
  · intro ha hb
    cases a <;> simp [Double.isFinite] at ha
    cases b <;> simp [Double.isFinite] at hb
    rename_i s m t n
    rcases key s t m n with h | ⟨q, hq, h⟩
    · rw [h]
      exact ⟨rfl, rfl, Or.inl rfl⟩
    · rw [h]
      refine ⟨rfl, ?_, Or.inr ⟨q, hq, rfl⟩⟩
      simpa [zero, Double.le, Double.toRat] using hq

/-- C19, instances: the fallback branch at `(0, 1)`, the final branch at `(100, 110)`, and the
result for the finite pair `(100, 110)`. -/
theorem relativeDifference_divisor_positive_witness :
    ((fin false 0).isFinite = true ∧ (fin false 1).isFinite = true ∧
      (Double.lt (Double.abs (fin false 0)) machineEpsilon = true →
        relativeDifference (fin false 0) (fin false 1)
          = Double.div (Double.abs (Double.sub (fin false 0) (fin false 1)))
              (Double.abs (fin false 1)) ∧
        Double.le machineEpsilon (Double.abs (fin false 1)) = true ∧
        Double.lt zero (Double.abs (fin false 1)) = true) ∧
      (Double.lt (Double.abs (fin false 0)) machineEpsilon = false →
        relativeDifference (fin false 0) (fin false 1)
          = Double.div (Double.abs (Double.sub (fin false 0) (fin false 1)))
              (Double.abs (fin false 0)) ∧
        Double.le machineEpsilon (Double.abs (fin false 0)) = true ∧
        Double.lt zero (Double.abs (fin false 0)) = true)) ∧
    ((relativeDifference (fin false 100) (fin false 110)).isnan = false ∧
      Double.le zero (relativeDifference (fin false 100) (fin false 110)) = true ∧
      (relativeDifference (fin false 100) (fin false 110) = inf false ∨
        ∃ q : ℚ, 0 ≤ q ∧ relativeDifference (fin false 100) (fin false 110) = fin false q)) :=
  ⟨(relativeDifference_divisor_positive (fin false 0) (fin false 1)).1 rfl rfl rfl rfl
      (by decide!),
    (relativeDifference_divisor_positive (fin false 100) (fin false 110)).2 rfl rfl⟩

/-- C19, counterexample to the unamended claim: for the finite doubles `a = 2^1023` and
`b = -2^1023` the difference `a - b` overflows and `relativeDifference(a, b)` is `+infinity`;
for `a = 0.5` and `b = 2^1023` the quotient overflows and the result is `+infinity` as well. -/
theorem relativeDifference_overflow_counterexample :
    (fin false (2 ^ 1023)).Valid ∧ (fin true (2 ^ 1023)).Valid ∧ (fin false (1 / 2)).Valid ∧
    relativeDifference (fin false (2 ^ 1023)) (fin true (2 ^ 1023)) = inf false ∧
    (relativeDifference (fin false (2 ^ 1023)) (fin true (2 ^ 1023))).isFinite = false ∧
    relativeDifference (fin false (1 / 2)) (fin false (2 ^ 1023)) = inf false := by
  decide!

/-- C20 (as amended): the asymmetric difference bounds the symmetric test when the bound is
strict: for all finite `a`, `b` and every double `rho`, if `relativeDifference(a, b) < rho` then
`isEqualRelative(a, b, rho)` is true.  The converse does not hold: for `a = 1`, `b = 2` and
`rho = 0.75`, `isEqualRelative` is true while `relativeDifference(a, b) = 1 > rho`. -/
theorem relativeDifference_lt_imp_isEqualRelative :
    (∀ a b rho : Double, a.isFinite = true → b.isFinite = true → rho.Valid →
      Double.lt (relativeDifference a b) rho = true → isEqualRelative a b rho = true) ∧
    (isEqualRelative (fin false 1) (fin false 2) (fin false (3 / 4)) = true ∧
      Double.ge (fin false (3 / 4)) zero = true ∧
      Double.le (relativeDifference (fin false 1) (fin false 2)) (fin false (3 / 4)) = false) := by
  refine ⟨?_, by decide!⟩
  intro a b rho ha hb hr h
  have hpos := machineEpsilon_pos
  have hD := abs_sub_finite_cases ha hb
  have hD' : Double.abs (Double.sub a b) = inf false ∨
      ∃ r : ℚ, 0 ≤ r ∧ roundMag r = r ∧ Double.abs (Double.sub a b) = fin false r := by
    rcases hD with h1 | ⟨r, h0, h1, _, h2⟩
    · exact Or.inl h1
    · exact Or.inr ⟨r, h0, h1, h2⟩
  rw [isEqualRelative_fin_eq ha hb]
  cases a <;> simp [Double.isFinite] at ha
  cases b <;> simp [Double.isFinite] at hb
  rename_i s m t n
  rw [relativeDifference_fin] at h
  cases h1 : Double.lt (Double.abs (fin s m)) machineEpsilon <;>
    cases h2 : Double.lt (Double.abs (fin t n)) machineEpsilon <;>
    simp only [h1, h2, Bool.and_true, Bool.and_false, Bool.false_eq_true, if_false, if_true,
      Bool.and_self] at h ⊢
  · -- reference `|a|`, which is not below the machine epsilon
    have hm := mag_ge_of_not_lt_machineEpsilon h1
    have hmpos : 0 < m := lt_of_lt_of_le hpos hm
    by_cases hmn : m < n
    · have hmax : Double.max (Double.abs (fin s m)) (Double.abs (fin t n)) = fin false n := by
        simp [Double.max, Double.abs, Double.lt, Double.toRat, hmn]
      rw [hmax]
      exact le_mul_of_div_lt hmpos hmn.le hD' hr h
    · have hmax : Double.max (Double.abs (fin s m)) (Double.abs (fin t n)) = fin false m := by
        simp [Double.max, Double.abs, Double.lt, Double.toRat, hmn]
      rw [hmax]
      exact le_mul_of_div_lt hmpos (le_refl m) hD' hr h
  · have hm := mag_ge_of_not_lt_machineEpsilon h1
    have hmpos : 0 < m := lt_of_lt_of_le hpos hm
    by_cases hmn : m < n
    · have hmax : Double.max (Double.abs (fin s m)) (Double.abs (fin t n)) = fin false n := by
        simp [Double.max, Double.abs, Double.lt, Double.toRat, hmn]
      rw [hmax]
      exact le_mul_of_div_lt hmpos hmn.le hD' hr h
    · have hmax : Double.max (Double.abs (fin s m)) (Double.abs (fin t n)) = fin false m := by
        simp [Double.max, Double.abs, Double.lt, Double.toRat, hmn]
      rw [hmax]
      exact le_mul_of_div_lt hmpos (le_refl m) hD' hr h
  · -- reference `|b|`: `|a|` is below the machine epsilon and `|b|` is not
    have hn := mag_ge_of_not_lt_machineEpsilon h2
    have hnpos : 0 < n := lt_of_lt_of_le hpos hn
    have hmn : m < n := by
      have : m < (2 : ℚ) ^ (-52 : ℤ) := by
        simpa [Double.abs, machineEpsilon, Double.lt, Double.toRat] using h1
      linarith
    have hmax : Double.max (Double.abs (fin s m)) (Double.abs (fin t n)) = fin false n := by
      simp [Double.max, Double.abs, Double.lt, Double.toRat, hmn]
    rw [hmax]
    exact le_mul_of_div_lt hnpos (le_refl n) hD' hr h

/-- C20, instance: `relativeDifference(100, 105) < 0.1` and `isEqualRelative(100, 105, 0.1)`. -/
theorem relativeDifference_lt_imp_isEqualRelative_witness :
    (fin false 100).isFinite = true ∧ (fin false 105).isFinite = true ∧
    (ofRat false (1 / 10)).Valid ∧
    Double.lt (relativeDifference (fin false 100) (fin false 105)) (ofRat false (1 / 10)) = true ∧
    isEqualRelative (fin false 100) (fin false 105) (ofRat false (1 / 10)) = true :=
  ⟨rfl, rfl, by decide!, by decide!,
    relativeDifference_lt_imp_isEqualRelative.1 (fin false 100) (fin false 105)
      (ofRat false (1 / 10)) rfl rfl (by decide!) (by decide!)⟩

/-- C20, counterexample to the unamended claim: for the finite doubles `a = 22`, `b = 7` and
`rho = relativeDifference(a, b) >= 0` (the double nearest to `15/22`, which lies below it),
`relativeDifference(a, b) <= rho` holds but `rho * 22` rounds below `15 = |a - b|`, so
`isEqualRelative(a, b, rho)` is false. -/
theorem relativeDifference_le_counterexample :
    (fin false 22).Valid ∧ (fin false 7).Valid ∧
    relativeDifference (fin false 22) (fin false 7)
      = fin false (6141272219141585 / 9007199254740992) ∧
    (fin false (6141272219141585 / 9007199254740992)).Valid ∧
    Double.ge (fin false (6141272219141585 / 9007199254740992)) zero = true ∧
    Double.le (relativeDifference (fin false 22) (fin false 7))
      (fin false (6141272219141585 / 9007199254740992)) = true ∧
    isEqualRelative (fin false 22) (fin false 7)
      (fin false (6141272219141585 / 9007199254740992)) = false := by
  decide!

/-! ## Monotonicity, complements and idempotence -/

/-- C21 (as amended): equality is monotone in the tolerance: for every `a`, `b` and tolerances
`t1 <= t2`, `isEqual(a, b, t1)` implies `isEqual(a, b, t2)`, `isEqualRelative(a, b, t1)` implies
`isEqualRelative(a, b, t2)`, `isEqualCombined` is monotone in its absolute tolerance, and it is
monotone in its relative tolerance provided the wider relative tolerance is finite or `a` and `b`
are not both zero (`max(|a|, |b|) > 0`). -/
theorem equality_monotone_in_tolerance (a b t1 t2 o : Double) (h : Double.le t1 t2 = true) :
    (isEqual a b t1 = true → isEqual a b t2 = true) ∧
    (t1.Valid → t2.Valid → isEqualRelative a b t1 = true → isEqualRelative a b t2 = true) ∧
    (isEqualCombined a b t1 o = true → isEqualCombined a b t2 o = true) ∧
    (a.Valid → b.Valid → t1.Valid → t2.Valid →
      (t2.isFinite = true ∨
        Double.lt zero (Double.max (Double.abs a) (Double.abs b)) = true) →
      isEqualCombined a b o t1 = true → isEqualCombined a b o t2 = true) := by
  by_cases hf : a.isFinite = true ∧ b.isFinite = true
  · obtain ⟨ha, hb⟩ := hf
    rw [isEqual_fin_eq ha hb, isEqual_fin_eq ha hb, isEqualRelative_fin_eq ha hb,
      isEqualRelative_fin_eq ha hb, isEqualCombined_fin_eq ha hb, isEqualCombined_fin_eq ha hb,
      isEqualCombined_fin_eq ha hb, isEqualCombined_fin_eq ha hb]
    cases a <;> simp [Double.isFinite] at ha
    cases b <;> simp [Double.isFinite] at hb
    rename_i s m t n
    rw [dmax_abs_fin]
    refine ⟨fun h1 => dle_trans h1 h, ?_, ?_, ?_⟩
    · intro hv1 hv2
      cases h1 : Double.lt (Double.abs (fin s m)) machineEpsilon &&
          Double.lt (Double.abs (fin t n)) machineEpsilon
      · simp only [Bool.false_eq_true, if_false]
        have hpos : 0 < (if m < n then n else m) := by
          have hp := machineEpsilon_pos
          have hnot : ¬ (m < (2 : ℚ) ^ (-52 : ℤ) ∧ n < (2 : ℚ) ^ (-52 : ℤ)) := by
            simpa [Double.abs, machineEpsilon, Double.lt, Double.toRat] using h1
          split_ifs with hmn
          · by_contra hc
            exact hnot ⟨by linarith, by linarith⟩
          · by_contra hc
            exact hnot ⟨by linarith, by linarith⟩
        exact dle_mul_of_dle_mul h hv1 hv2 hpos.le (Or.inr hpos)
      · simp
    · intro h1
      by_cases h2 : Double.le (Double.abs (Double.sub (fin s m) (fin t n))) t1 = true
      · rw [dle_trans h2 h]
        rfl
      · rw [if_neg h2] at h1
        rw [h1]
        simp
    · intro hva hvb hv1 hv2 hc h1
      by_cases h2 : Double.le (Double.abs (Double.sub (fin s m) (fin t n))) o = true
      · simp [h2]
      · rw [if_neg h2] at h1 ⊢
        have hM : 0 ≤ (if m < n then n else m) := by
          split_ifs
          · exact hvb.1
          · exact hva.1
        have hc' : t2.isFinite = true ∨ 0 < (if m < n then n else m) := by
          rcases hc with hc | hc
          · exact Or.inl hc
          · right
            simpa [zero, Double.lt, Double.toRat] using hc
        exact dle_mul_of_dle_mul h hv1 hv2 hM hc' h1
  · obtain ⟨e1, e2, e3⟩ := equality_not_finite hf t1 t1
    obtain ⟨f1, f2, f3⟩ := equality_not_finite hf t2 t2
    obtain ⟨_, _, g1⟩ := equality_not_finite hf t1 o
    obtain ⟨_, _, g2⟩ := equality_not_finite hf t2 o
    obtain ⟨_, _, g3⟩ := equality_not_finite hf o t1
    obtain ⟨_, _, g4⟩ := equality_not_finite hf o t2
    rw [e1, e2, f1, f2, g1, g2, g3, g4]
    exact ⟨id, fun _ _ => id, id, fun _ _ _ _ _ => id⟩

/-- C21, instance: the pair `(1, 1 + 1e-10)`, accepted with the default tolerance `1e-9`, is
accepted with the wider tolerance `0.1` by all three predicates. -/
theorem equality_monotone_in_tolerance_witness :
    Double.le DEFAULT_EPSILON (ofRat false (1 / 10)) = true ∧
    (isEqual (fin false 1) (Double.add (fin false 1) (ofRat false (1 / 10 ^ 10)))
      (ofRat false (1 / 10)) = true ∧
    isEqualRelative (fin false 1) (Double.add (fin false 1) (ofRat false (1 / 10 ^ 10)))
      (ofRat false (1 / 10)) = true ∧
    isEqualCombined (fin false 1) (Double.add (fin false 1) (ofRat false (1 / 10 ^ 10)))
      (ofRat false (1 / 10)) zero = true ∧
    isEqualCombined (fin false 1) (Double.add (fin false 1) (ofRat false (1 / 10 ^ 10)))
      zero (ofRat false (1 / 10)) = true) :=
  ⟨by decide!,
    (equality_monotone_in_tolerance (fin false 1)
      (Double.add (fin false 1) (ofRat false (1 / 10 ^ 10))) DEFAULT_EPSILON
      (ofRat false (1 / 10)) zero (by decide!)).1 (by decide!),
    (equality_monotone_in_tolerance (fin false 1)
      (Double.add (fin false 1) (ofRat false (1 / 10 ^ 10))) DEFAULT_EPSILON
      (ofRat false (1 / 10)) zero (by decide!)).2.1 (by decide!) (by decide!) (by decide!),
    (equality_monotone_in_tolerance (fin false 1)
      (Double.add (fin false 1) (ofRat false (1 / 10 ^ 10))) DEFAULT_EPSILON
      (ofRat false (1 / 10)) zero (by decide!)).2.2.1 (by decide!),
    (equality_monotone_in_tolerance (fin false 1)
      (Double.add (fin false 1) (ofRat false (1 / 10 ^ 10))) DEFAULT_EPSILON
      (ofRat false (1 / 10)) zero (by decide!)).2.2.2 (by decide!) (by decide!) (by decide!)
      (by decide!) (Or.inl (by decide!)) (by decide!)⟩

/-- C21, counterexample to the unamended claim: for `a = b = 0`, absolute tolerance `-1` and
relative tolerances `1 <= +infinity`, `isEqualCombined(0, 0, -1, 1)` is true (`0 <= 1 * 0`) but
`isEqualCombined(0, 0, -1, +infinity)` is false (`infinity * 0` is NaN). -/
theorem isEqualCombined_relTol_counterexample :
    Double.le (fin false 1) (inf false) = true ∧
    isEqualCombined zero zero (fin true 1) (fin false 1) = true ∧
    isEqualCombined zero zero (fin true 1) (inf false) = false := by
  decide!

/-- C22 (as amended): for every `a`, `b` and `epsilon` none of which is NaN,
`isLessOrEqual(a, b, epsilon) = not isGreater(a, b, epsilon)` unless `b` and `epsilon` are
infinities of opposite sign, and `isGreaterOrEqual(a, b, epsilon) = not isLess(a, b, epsilon)`
unless `b` and `epsilon` are infinities of the same sign; in the excepted cases the shifted bound
is NaN and both predicates are false.  When `a`, `b` or `epsilon` is NaN all four predicates are
false. -/
theorem nonstrict_complements_strict (a b epsilon : Double) :
    (a.isnan = false → b.isnan = false → epsilon.isnan = false →
      (¬ ∃ s, b = inf s ∧ epsilon = inf (!s)) →
      isLessOrEqual a b epsilon = !isGreater a b epsilon) ∧
    (a.isnan = false → b.isnan = false → epsilon.isnan = false →
      (¬ ∃ s, b = inf s ∧ epsilon = inf s) →
      isGreaterOrEqual a b epsilon = !isLess a b epsilon) ∧
    ((∃ s, b = inf s ∧ epsilon = inf (!s)) →
      isLessOrEqual a b epsilon = false ∧ isGreater a b epsilon = false) ∧
    ((∃ s, b = inf s ∧ epsilon = inf s) →
      isGreaterOrEqual a b epsilon = false ∧ isLess a b epsilon = false) ∧
    ((a.isnan = true ∨ b.isnan = true ∨ epsilon.isnan = true) →
      isLess a b epsilon = false ∧ isLessOrEqual a b epsilon = false ∧
      isGreater a b epsilon = false ∧ isGreaterOrEqual a b epsilon = false) := by
  refine ⟨?_, ?_, ?_, ?_, ?_⟩
  · intro ha hb he hne
    have hx : (Double.add b epsilon).isnan = false := by
      cases hc : (Double.add b epsilon).isnan
      · rfl
      · exact absurd ((add_isnan_iff hb he).mp hc) hne
    exact dle_eq_not_dlt ha hx
  · intro ha hb he hne
    have hx : (Double.sub b epsilon).isnan = false := by
      cases hc : (Double.sub b epsilon).isnan
      · rfl
      · exact absurd ((sub_isnan_iff hb he).mp hc) hne
    show Double.le (Double.sub b epsilon) a = !Double.lt a (Double.sub b epsilon)
    exact dle_eq_not_dlt hx ha
  · rintro ⟨s, rfl, rfl⟩
    cases s <;> cases a <;> exact ⟨rfl, rfl⟩
  · rintro ⟨s, rfl, rfl⟩
    cases s <;> cases a <;> exact ⟨rfl, rfl⟩
  · rintro (h | h | h)
    · rw [isnan_eq_true_iff] at h
      subst h
      simp only [isLess, isLessOrEqual, isGreater, isGreaterOrEqual, Double.gt, Double.ge]
      exact ⟨dlt_nan_left _, dle_nan_left _, dlt_nan_right _, dle_nan_right _⟩
    · rw [isnan_eq_true_iff] at h
      subst h
      simp only [isLess, isLessOrEqual, isGreater, isGreaterOrEqual, Double.gt, Double.ge,
        add_nan_left, sub_nan_left]
      exact ⟨dlt_nan_right _, dle_nan_right _, dlt_nan_left _, dle_nan_left _⟩
    · rw [isnan_eq_true_iff] at h
      subst h
      simp only [isLess, isLessOrEqual, isGreater, isGreaterOrEqual, Double.gt, Double.ge,
        add_nan_right, sub_nan_right]
      exact ⟨dlt_nan_right _, dle_nan_right _, dlt_nan_left _, dle_nan_left _⟩

/-- C22, instances from the test suite: `isLessOrEqual(1, 2)` and `isGreaterOrEqual(1, 2)` with
the default tolerance, and a NaN operand. -/
theorem nonstrict_complements_strict_witness :
    isLessOrEqual (fin false 1) (fin false 2) DEFAULT_EPSILON
      = !isGreater (fin false 1) (fin false 2) DEFAULT_EPSILON ∧
    isGreaterOrEqual (fin false 1) (fin false 2) DEFAULT_EPSILON
      = !isLess (fin false 1) (fin false 2) DEFAULT_EPSILON ∧
    (isLess nan (fin false 2) DEFAULT_EPSILON = false ∧
      isLessOrEqual nan (fin false 2) DEFAULT_EPSILON = false ∧
      isGreater nan (fin false 2) DEFAULT_EPSILON = false ∧
      isGreaterOrEqual nan (fin false 2) DEFAULT_EPSILON = false) :=
  ⟨(nonstrict_complements_strict (fin false 1) (fin false 2) DEFAULT_EPSILON).1 rfl rfl
      (by decide!) (by rintro ⟨s, h, _⟩; cases h),
    (nonstrict_complements_strict (fin false 1) (fin false 2) DEFAULT_EPSILON).2.1 rfl rfl
      (by decide!) (by rintro ⟨s, h, _⟩; cases h),
    (nonstrict_complements_strict nan (fin false 2) DEFAULT_EPSILON).2.2.2.2 (Or.inl rfl)⟩

/-- C22, counterexample to the unamended claim: for `a = 0`, `b = +infinity` and
`epsilon = -infinity`, none of them NaN, `b + epsilon` is NaN, so `isLessOrEqual` and `isGreater`
are both false; for `epsilon = +infinity`, `b - epsilon` is NaN, so `isGreaterOrEqual` and
`isLess` are both false. -/
theorem nonstrict_complements_strict_counterexample :
    zero.isnan = false ∧ (inf false).isnan = false ∧ (inf true).isnan = false ∧
    isLessOrEqual zero (inf false) (inf true) = false ∧
    (!isGreater zero (inf false) (inf true)) = true ∧
    isGreaterOrEqual zero (inf false) (inf false) = false ∧
    (!isLess zero (inf false) (inf false)) = true := by
  decide

/-- C23 (as amended): `clamp` is idempotent when the upper bound is not within tolerance of the
lower one: for every `value`, finite `min < max` and `epsilon >= 0` such that `max` is not
tolerantly `<= min` (`max > min + epsilon`, the sum computed in double arithmetic),
`clamp(clamp(value, min, max, epsilon), min, max, epsilon) = clamp(value, min, max, epsilon)`. -/
theorem clamp_idempotent (value mn mx epsilon : Double)
    (hmnv : mn.Valid) (hmxv : mx.Valid) (hmn : mn.isFinite = true) (hmx : mx.isFinite = true)
    (hlt : Double.lt mn mx = true) (he : Double.ge epsilon zero = true)
    (hgap : isLessOrEqual mx mn epsilon = false) :
    clamp (clamp value mn mx epsilon) mn mx epsilon = clamp value mn mx epsilon := by
  have hgt : Double.gt mn mx = false := dlt_false_of_dlt hlt
  rw [clamp_of_not_gt _ epsilon hgt, clamp_of_not_gt value epsilon hgt]
  have hlo : isLessOrEqual mn mn epsilon = true := le_add_of_nonneg hmn hmnv he
  have hhi : isGreaterOrEqual mx mx epsilon = true := sub_le_of_nonneg hmx hmxv he
  by_cases h1 : isLessOrEqual value mn epsilon = true
  · simp [h1, hlo]
  · by_cases h2 : isGreaterOrEqual value mx epsilon = true
    · simp [h1, h2, hgap, hhi]
    · simp [h1, h2]

/-- C23, instance: `clamp(15, 0, 10)` with the default tolerance. -/
theorem clamp_idempotent_witness :
    (fin false 0).Valid ∧ (fin false 10).Valid ∧ (fin false 0).isFinite = true ∧
    (fin false 10).isFinite = true ∧ Double.lt (fin false 0) (fin false 10) = true ∧
    Double.ge DEFAULT_EPSILON zero = true ∧
    isLessOrEqual (fin false 10) (fin false 0) DEFAULT_EPSILON = false ∧
    clamp (clamp (fin false 15) (fin false 0) (fin false 10) DEFAULT_EPSILON)
        (fin false 0) (fin false 10) DEFAULT_EPSILON
      = clamp (fin false 15) (fin false 0) (fin false 10) DEFAULT_EPSILON :=
  ⟨by decide!, by decide!, rfl, rfl, by decide!, by decide!, by decide!,
    clamp_idempotent (fin false 15) (fin false 0) (fin false 10) DEFAULT_EPSILON
      (by decide!) (by decide!) rfl rfl (by decide!) (by decide!) (by decide!)⟩

/-- C23, counterexample to the unamended claim: with `min = 1 < max = 1 + 2^-51` and
`epsilon = 3 * 2^-53`, so that `0 <= epsilon < max - min = 2^-51`, the finite value `5` is
clamped to `max`, but `min + epsilon` rounds up to `max`, so clamping `max` again gives
`min`. -/
theorem clamp_idempotent_counterexample :
    (fin false 1).Valid ∧ (fin false (1 + 1 / 2 ^ 51)).Valid ∧ (fin false (3 / 2 ^ 53)).Valid ∧
    Double.lt (fin false 1) (fin false (1 + 1 / 2 ^ 51)) = true ∧
    Double.le zero (fin false (3 / 2 ^ 53)) = true ∧
    Double.lt (fin false (3 / 2 ^ 53))
      (Double.sub (fin false (1 + 1 / 2 ^ 51)) (fin false 1)) = true ∧
    clamp (fin false 5) (fin false 1) (fin false (1 + 1 / 2 ^ 51)) (fin false (3 / 2 ^ 53))
      = fin false (1 + 1 / 2 ^ 51) ∧
    clamp (clamp (fin false 5) (fin false 1) (fin false (1 + 1 / 2 ^ 51)) (fin false (3 / 2 ^ 53)))
        (fin false 1) (fin false (1 + 1 / 2 ^ 51)) (fin false (3 / 2 ^ 53))
      = fin false 1 ∧
    Double.eq
      (clamp (clamp (fin false 5) (fin false 1) (fin false (1 + 1 / 2 ^ 51))
          (fin false (3 / 2 ^ 53))) (fin false 1) (fin false (1 + 1 / 2 ^ 51))
        (fin false (3 / 2 ^ 53)))
      (clamp (fin false 5) (fin false 1) (fin false (1 + 1 / 2 ^ 51)) (fin false (3 / 2 ^ 53)))
      = false := by
  decide!

/-! ## Byte order of the dataset headers (`MNISTLoader.cpp`) -/

/-- C24: `MNISTLoader::reverseBytes` reverses the four bytes of a 32-bit word (the word with bytes
`[b3, b2, b1, b0]` becomes the word with bytes `[b0, b1, b2, b3]`), stays within 32 bits, and is
therefore an involution: for every 32-bit unsigned value `x`,
`reverseBytes(reverseBytes(x)) = x`. -/
theorem reverseBytes_involution :
    (∀ b3 b2 b1 b0 : ℕ, b3 < 256 → b2 < 256 → b1 < 256 → b0 < 256 →
      MNISTLoader.reverseBytes (2 ^ 24 * b3 + 2 ^ 16 * b2 + 2 ^ 8 * b1 + b0)
        = 2 ^ 24 * b0 + 2 ^ 16 * b1 + 2 ^ 8 * b2 + b3) ∧
    (∀ x : ℕ, x < 2 ^ 32 → MNISTLoader.reverseBytes x < 2 ^ 32) ∧
    (∀ x : ℕ, x < 2 ^ 32 → MNISTLoader.reverseBytes (MNISTLoader.reverseBytes x) = x) :=
  ⟨reverseBytes_bytes, reverseBytes_lt, reverseBytes_twice⟩

/-- C24, instance: the big-endian magic number `0x00000803` of an image file, read as
`0x03080000` on a little-endian machine, is restored by `reverseBytes`, and reversing it again
gives the value read. -/
theorem reverseBytes_involution_witness :
    MNISTLoader.reverseBytes (2 ^ 24 * 3 + 2 ^ 16 * 8 + 2 ^ 8 * 0 + 0)
      = 2 ^ 24 * 0 + 2 ^ 16 * 0 + 2 ^ 8 * 8 + 3 ∧
    MNISTLoader.reverseBytes 0x03080000 < 2 ^ 32 ∧
    MNISTLoader.reverseBytes (MNISTLoader.reverseBytes 0x03080000) = 0x03080000 :=
  ⟨reverseBytes_involution.1 3 8 0 0 (by decide) (by decide) (by decide) (by decide),
    reverseBytes_involution.2.1 0x03080000 (by decide),
    reverseBytes_involution.2.2 0x03080000 (by decide)⟩

end Cmp
